import Mathlib

/-!
# A shallow embedding of `src/main.py` (NavSous/Insider-Tracker)

This file models the `InsiderTracker` class of `src/main.py`: the market-cap
resolver `_get_market_cap`, the fetch-and-extract pipeline `fetch_insider_data`,
the column conversions of `process_insider_data`, and the query operations
`get_recent_trades`, `get_trades_by_type`, `get_trades_by_market_cap_percent`
and `filter_trades`.

Modelling conventions:
* Python floats are modelled by `PFloat`: an exact fraction (`Frac`), `+inf`,
  `-inf`, or `NaN`, with IEEE-style division and multiplication (division by
  zero produces an infinity or NaN, never an exception).  `Frac` keeps an
  explicitly positive denominator (`den1 + 1`) so that all comparisons are
  plain integer arithmetic; `Frac.toRat` gives its value in `ℚ`.
* External collaborators (the HTTP transport, BeautifulSoup, Alpha Vantage)
  are modelled as oracles: a fetch outcome `Except Unit Html` and a per-call
  company-overview oracle `Nat → Except Unit Overview`.
* The pandas DataFrame is modelled columnwise (`DataFrame`), with dynamic
  cell values `PyVal` (string, float, or datetime on a fractional timeline
  measured in minutes).
* Python object identity, needed to express "returns a copy" vs "returns the
  cached object itself", is modelled with an explicit heap of DataFrames
  inside `TrackerState`; an address is an index into that heap.
* `df.sort_values('Value ($)', ascending=False)` delegates to pandas
  `nargsort` with the default `kind='quicksort'`, which calls numpy's
  introsort-based `argsort`.  That reference algorithm (median-of-three
  quicksort on the index array, insertion sort for ranges of at most 16
  elements, heapsort at the depth limit) is reproduced below in
  `aquicksortList` / `pandasDescArgsort`.
-/

/-- Equality of modelled oracle outcomes is decidable (used to evaluate
concrete runs). -/
instance {e a : Type} [DecidableEq e] [DecidableEq a] : DecidableEq (Except e a) := by
  intro x y
  cases x <;> cases y <;>
    first
      | (apply isFalse; intro h; exact Except.noConfusion h)
      | (rename_i u v
         exact if h : u = v then isTrue (by rw [h]) else isFalse (by intro hh; cases hh; exact h rfl))

/-- An exact binary-unnormalised fraction `num / (den1 + 1)`.  The denominator
is positive by construction, so order and equality are integer
cross-multiplications. -/
structure Frac where
  num : ℤ
  den1 : ℕ
deriving DecidableEq, Repr

namespace Frac

/-- The (positive) denominator. -/
def den (a : Frac) : ℤ := (a.den1 : ℤ) + 1

/-- Embed an integer. -/
def ofInt (n : ℤ) : Frac := ⟨n, 0⟩

/-- `n / d` for a positive numeral denominator (`d = 0` gives junk `0`). -/
def mk' (n : ℤ) (d : ℕ) : Frac := if d = 0 then ⟨0, 0⟩ else ⟨n, d - 1⟩

/-- Semantic value in `ℚ`. -/
def toRat (a : Frac) : ℚ := (a.num : ℚ) / (a.den : ℚ)

def isZero (a : Frac) : Bool := a.num == 0
def blt (a b : Frac) : Bool := a.num * b.den < b.num * a.den
def ble (a b : Frac) : Bool := a.num * b.den ≤ b.num * a.den
def beqv (a b : Frac) : Bool := a.num * b.den == b.num * a.den
def add (a b : Frac) : Frac := ⟨a.num * b.den + b.num * a.den, a.den1 * b.den1 + a.den1 + b.den1⟩
def neg (a : Frac) : Frac := ⟨-a.num, a.den1⟩
def sub (a b : Frac) : Frac := add a (neg b)
def mul (a b : Frac) : Frac := ⟨a.num * b.num, a.den1 * b.den1 + a.den1 + b.den1⟩

/-- `a / b` for `b` with nonzero numerator; junk `0` on a zero divisor
(the zero case is always guarded at the call sites, matching IEEE handling
in `PFloat.div`). -/
def div (a b : Frac) : Frac :=
  if b.num = 0 then ⟨0, 0⟩
  else ⟨a.num * b.den * (if b.num < 0 then -1 else 1), (a.den * b.num.natAbs - 1).toNat⟩

end Frac

/-- Model of a Python float: an exact fraction, an infinity, or NaN. -/
inductive PFloat where
  | finite (f : Frac)
  | pinf
  | ninf
  | nan
deriving DecidableEq, Repr

namespace PFloat

/-- Shorthand for finite literals `n / d`. -/
def fin (n : ℤ) (d : ℕ := 1) : PFloat := finite (Frac.mk' n d)

/-- IEEE `<` comparison: NaN is incomparable with everything. -/
def lt : PFloat → PFloat → Bool
  | finite a, finite b => Frac.blt a b
  | finite _, pinf => true
  | ninf, finite _ => true
  | ninf, pinf => true
  | _, _ => false

/-- IEEE NaN test (`x != x`). -/
def isNan : PFloat → Bool
  | nan => true
  | _ => false

/-- IEEE division.  Finite `x / 0` yields an infinity (or NaN for `0/0`),
matching numpy's behaviour on numeric columns (a `RuntimeWarning`, never an
exception). -/
def div : PFloat → PFloat → PFloat
  | nan, _ => nan
  | _, nan => nan
  | finite a, finite b =>
      if Frac.isZero b then
        (if Frac.blt (Frac.ofInt 0) a then pinf
         else if Frac.blt a (Frac.ofInt 0) then ninf else nan)
      else finite (Frac.div a b)
  | finite _, pinf => finite (Frac.ofInt 0)
  | finite _, ninf => finite (Frac.ofInt 0)
  | pinf, finite b => if Frac.blt b (Frac.ofInt 0) then ninf else pinf
  | ninf, finite b => if Frac.blt b (Frac.ofInt 0) then pinf else ninf
  | pinf, _ => nan
  | ninf, _ => nan

/-- IEEE multiplication. -/
def mul : PFloat → PFloat → PFloat
  | nan, _ => nan
  | _, nan => nan
  | finite a, finite b => finite (Frac.mul a b)
  | pinf, finite b =>
      if Frac.blt b (Frac.ofInt 0) then ninf else if Frac.isZero b then nan else pinf
  | ninf, finite b =>
      if Frac.blt b (Frac.ofInt 0) then pinf else if Frac.isZero b then nan else ninf
  | finite a, pinf =>
      if Frac.blt a (Frac.ofInt 0) then ninf else if Frac.isZero a then nan else pinf
  | finite a, ninf =>
      if Frac.blt a (Frac.ofInt 0) then pinf else if Frac.isZero a then nan else ninf
  | pinf, pinf => pinf
  | pinf, ninf => ninf
  | ninf, pinf => ninf
  | ninf, ninf => pinf

/-- IEEE `>=` against a finite threshold (NaN compares false). -/
def geF (x : PFloat) (c : Frac) : Bool :=
  match x with
  | finite a => Frac.ble c a
  | pinf => true
  | ninf => false
  | nan => false

end PFloat

/-- numpy's `DOUBLE_LT(a, b) = (a < b) || (b != b && a == a)`: the comparison
used by its sorting kernels (NaN sorts last). -/
def npSortLT (a b : PFloat) : Bool :=
  PFloat.lt a b || (PFloat.isNan b && !PFloat.isNan a)

/-! ## Python string operations

Core `String.replace`/`String.trim` are not used; the Python semantics are
reproduced structurally over character lists. -/

/-- Does `pat` occur at the head of the character list? -/
def matchesAt : List Char → List Char → Bool
  | [], _ => true
  | _ :: _, [] => false
  | p :: ps, c :: cs => p == c && matchesAt ps cs

/-- Python `str.replace(pat, repl)`: non-overlapping, left to right.  The
fuel is the string length (each step consumes at least one character). -/
def pyReplaceAux (pat repl : List Char) : ℕ → List Char → List Char
  | _, [] => []
  | 0, s => s
  | fuel + 1, c :: cs =>
    if pat ≠ [] ∧ matchesAt pat (c :: cs) then
      repl ++ pyReplaceAux pat repl fuel (List.drop (pat.length - 1) cs)
    else
      c :: pyReplaceAux pat repl fuel cs

/-- Python `s.replace(pat, repl)` on strings (used with `','` and `'$'`). -/
def pyReplace (s pat repl : String) : String :=
  String.mk (pyReplaceAux pat.toList repl.toList s.toList.length s.toList)

/-- Python `str.strip()`: drop whitespace on both ends. -/
def pyStripList (cs : List Char) : List Char :=
  ((cs.dropWhile Char.isWhitespace).reverse.dropWhile Char.isWhitespace).reverse

/-- Python `s.strip()` on strings. -/
def pyStrip (s : String) : String := String.mk (pyStripList s.toList)

/-! ## Number and date parsing

`float(...)` (used by `.astype(float)` and by `_get_market_cap`) is modelled
on the numeric-literal core of Python's float grammar: optional surrounding
whitespace, optional sign, decimal digits with an optional fractional part
and an optional exponent.  Exotic literals (`inf`, `nan`, underscore
separators) are outside the modelled grammar. -/

/-- Value of a digit run, most significant first; `none` if a non-digit is
present. -/
def digitsVal : List Char → Option ℕ
  | [] => some 0
  | c :: cs =>
    if c.isDigit then
      (digitsVal cs).map (fun v => (c.toNat - '0'.toNat) * 10 ^ cs.length + v)
    else none

/-- Split the longest digit run off the front of a character list. -/
def spanDigits : List Char → List Char × List Char
  | [] => ([], [])
  | c :: cs =>
    if c.isDigit then
      let (d, r) := spanDigits cs
      (c :: d, r)
    else ([], c :: cs)

/-- Parse an optional sign, returning `true` for negative. -/
def parseSign : List Char → Bool × List Char
  | '+' :: cs => (false, cs)
  | '-' :: cs => (true, cs)
  | cs => (false, cs)

/-- Parse the exponent suffix (`e`/`E`, optional sign, digits); `none` means
a malformed trailing part.  An empty list is a valid (absent) exponent. -/
def parseExp : List Char → Option ℤ
  | [] => some 0
  | c :: cs =>
    if c = 'e' ∨ c = 'E' then
      let (neg, cs₁) := parseSign cs
      let (d, r) := spanDigits cs₁
      if d = [] ∨ r ≠ [] then none
      else (digitsVal d).map (fun v => if neg then -(v : ℤ) else (v : ℤ))
    else none

/-- Model of Python `float(s)` on finite numeric literals, as an exact
fraction. -/
def parseFloat (s : String) : Option Frac := do
  let cs := pyStripList s.toList
  let (neg, cs₁) := parseSign cs
  let (ip, cs₂) := spanDigits cs₁
  let (fp, cs₃) :=
    match cs₂ with
    | '.' :: rest => let (d, r) := spanDigits rest; (some d, r)
    | rest => (none, rest)
  if ip = [] ∧ (fp = some [] ∨ fp = none) then none
  else
    let iv ← digitsVal ip
    let fv ← digitsVal (fp.getD [])
    let fl := (fp.getD []).length
    let e ← parseExp cs₃
    let base : ℤ := (if neg then -1 else 1) * ((iv : ℤ) * 10 ^ fl + (fv : ℤ))
    some (match e with
      | .ofNat k => Frac.mk' (base * 10 ^ k) (10 ^ fl)
      | .negSucc k => Frac.mk' base (10 ^ fl * 10 ^ (k + 1)))

/-- Model of `pd.to_datetime` on the canonical inputs used here: dates are
placed on a fractional timeline measured in minutes, and the modelled parser
accepts decimal-digit timestamps.  (`to_datetime` itself is an external
collaborator; only that it either parses the whole column or raises matters
to the program.) -/
def parseDate (s : String) : Option Frac :=
  let (d, r) := spanDigits s.toList
  if d = [] ∨ r ≠ [] then none
  else (digitsVal d).map (fun v => Frac.ofInt (v : ℤ))

/-- The visible text of a table cell: `''.join(s.strip() for s in
td.strings if s.strip())` at line 101 of `main.py`. -/
def visibleText (strs : List String) : String :=
  String.join ((strs.map pyStrip).filter (fun s => s ≠ ""))

/-- `th.text.strip()` (line 93): concatenation of all strings, then trimmed. -/
def fullText (strs : List String) : String :=
  pyStrip (String.join strs)


/-! ## DataFrame model

A pandas DataFrame is modelled columnwise: named columns of dynamic cells.
Unknown addressed columns raise `KeyError` in Python; reads return `Option`
and callers treat `none` as the raised exception. -/

/-- A dynamically typed cell: string (raw data), float, or datetime. -/
inductive PyVal where
  | s (v : String)
  | f (v : PFloat)
  | d (v : Frac)
deriving DecidableEq, Repr

/-- Columnwise DataFrame. -/
structure DataFrame where
  cols : List (String × List PyVal)
deriving DecidableEq, Repr

namespace DataFrame

/-- `df[name]` as a read (a missing column is a `KeyError`). -/
def getCol (df : DataFrame) (name : String) : Option (List PyVal) :=
  (df.cols.find? (fun c => c.1 == name)).map (fun c => c.2)

/-- `df[name] = vals`: replace an existing column or append a new one. -/
def setCol (df : DataFrame) (name : String) (vals : List PyVal) : DataFrame :=
  if (df.cols.find? (fun c => c.1 == name)).isSome then
    ⟨df.cols.map (fun c => if c.1 == name then (c.1, vals) else c)⟩
  else ⟨df.cols ++ [(name, vals)]⟩

/-- Number of rows (length of the leading column). -/
def nrows (df : DataFrame) : ℕ :=
  ((df.cols.head?).map (fun c => c.2.length)).getD 0

/-- `df.empty`: no rows or no columns. -/
def isEmptyDf (df : DataFrame) : Bool :=
  df.cols.isEmpty || nrows df == 0

/-- `pd.DataFrame(rows, columns=headers)` (all rows have the header arity
when built by `fetch_insider_data`). -/
def ofRows (headers : List String) (rows : List (List String)) : DataFrame :=
  ⟨headers.enum.map (fun jh => (jh.2, rows.map (fun r => PyVal.s (r.getD jh.1 ""))))⟩

/-- Row selection by a boolean mask, `df[mask]`, applied to every column. -/
def maskRows (df : DataFrame) (mask : List Bool) : DataFrame :=
  ⟨df.cols.map (fun c =>
    (c.1, ((c.2.zip mask).filter (fun p => p.2)).map (fun p => p.1)))⟩

/-- Row selection by an index list (`take` with the argsort indexer). -/
def takeRows (df : DataFrame) (idxs : List ℕ) : DataFrame :=
  ⟨df.cols.map (fun c => (c.1, idxs.filterMap (fun i => c.2.get? i)))⟩

end DataFrame

/-! ## HTML model and table extraction (`fetch_insider_data`, lines 71-104)

BeautifulSoup itself is external; an `Html` value records exactly what the
extraction code queries: the table with id `insider-table`, and the tables
under the `content` div.  A cell keeps its tag kind (`th` vs `td`) and its
list of text nodes. -/

structure HCell where
  isTh : Bool
  strs : List String
deriving DecidableEq, Repr

structure HtmlTr where
  headerClass : Bool
  cells : List HCell
deriving DecidableEq, Repr

structure HtmlTable where
  trs : List HtmlTr
deriving DecidableEq, Repr

structure Html where
  tableById : Option HtmlTable
  contentTables : Option (List HtmlTable)
deriving DecidableEq, Repr

/-- Lines 74-83: find the table by id, else the second table of the content
div. -/
def findTable (h : Html) : Option HtmlTable :=
  match h.tableById with
  | some t => some t
  | none =>
    match h.contentTables with
    | some ts => if 2 ≤ ts.length then ts.get? 1 else none
    | none => none

/-- Line 90: `table.find('tr', {'class': 'header-row'}) or table.find('tr')`. -/
def headerRowOf (t : HtmlTable) : Option HtmlTr :=
  match t.trs.find? (fun tr => tr.headerClass) with
  | some tr => some tr
  | none => t.trs.head?

/-- Lines 89-93: header texts are `th.text.strip()` over all `th`/`td` cells
of the header row; an absent header row leaves the list empty. -/
def extractHeaders (t : HtmlTable) : List String :=
  match headerRowOf t with
  | some tr => tr.cells.map (fun c => fullText c.strs)
  | none => []

/-- Lines 98-102: the visible texts of the `td` cells of a data row. -/
def rowCells (tr : HtmlTr) : List String :=
  ((tr.cells.filter (fun c => !c.isTh)).map (fun c => visibleText c.strs))

/-- Lines 96-104: data rows are all `tr`s but the first; a row is kept when
`row and len(row) == len(headers)`. -/
def extractRows (t : HtmlTable) (headers : List String) : List (List String) :=
  ((t.trs.drop 1).map rowCells).filter
    (fun r => !r.isEmpty && r.length == headers.length)

/-- The fetch-and-extract stage of `fetch_insider_data` (lines 66-109):
network fetch, table discovery, header/row extraction, DataFrame
construction, and the emptiness check.  `none` is any raised-and-caught
failure (transport error / `ValueError`). -/
def extractStage (net : Except Unit Html) : Option DataFrame :=
  match net with
  | .error _ => none
  | .ok html =>
    match findTable html with
    | none => none
    | some table =>
      let headers := extractHeaders table
      let rows := extractRows table headers
      let df := DataFrame.ofRows headers rows
      if df.isEmptyDf then none else some df

/-! ## numpy argsort (reference introsort), as called by pandas `nargsort`

`df.sort_values('Value ($)', ascending=False)` runs
`indexer = nargsort(values, kind='quicksort', ascending=False)`, i.e.
numpy's `aquicksort` on the reversed values with the index array reversed
before and the indexer reversed after.  `aquicksort` is the classic
introsort on the index array `tosort`: median-of-three quicksort partitions
while the range exceeds `SMALL_QUICKSORT = 15` elements, insertion sort
below that, heapsort once the depth limit `2*msb(n)` is exhausted. -/

/-- `v[tosort[i]]` with NaN as the out-of-range junk value. -/
def valAt (v : List PFloat) (t : List ℕ) (i : ℤ) : PFloat :=
  v.getD (t.getD i.toNat 0) PFloat.nan

/-- `INTP_SWAP(*pi, *pj)` on the index array. -/
def swapIdx (t : List ℕ) (i j : ℤ) : List ℕ :=
  let a := t.getD i.toNat 0
  let b := t.getD j.toNat 0
  (t.set i.toNat b).set j.toNat a

/-- `DOUBLE_LT(v[*pi], v[*pj])`. -/
def ltIdx (v : List PFloat) (t : List ℕ) (i j : ℤ) : Bool :=
  npSortLT (valAt v t i) (valAt v t j)

/-- The insertion pass's inner while-loop, on the reversed sorted prefix:
entries whose key exceeds the inserted one are shifted past it. -/
def insertRev (v : List PFloat) (vi : ℕ) : List ℕ → List ℕ
  | [] => [vi]
  | k :: rest =>
    if npSortLT (v.getD vi PFloat.nan) (v.getD k PFloat.nan) then
      k :: insertRev v vi rest
    else vi :: k :: rest

/-- The insertion pass's outer loop: indices are taken left to right and
inserted into the sorted prefix (kept reversed). -/
def npInsertionGo (v : List PFloat) : List ℕ → List ℕ → List ℕ
  | revAcc, [] => revAcc.reverse
  | revAcc, i :: is => npInsertionGo v (insertRev v i revAcc) is

/-- numpy's insertion argsort of a whole segment. -/
def npInsertion (v : List PFloat) (seg : List ℕ) : List ℕ :=
  npInsertionGo v [] seg

/-- The insertion pass applied to `tosort[pl..pr]` in place. -/
def insertionRange (v : List PFloat) (t : List ℕ) (pl pr : ℤ) : List ℕ :=
  if pr < pl then t
  else
    t.take pl.toNat ++ npInsertion v ((t.drop pl.toNat).take (pr + 1 - pl).toNat)
      ++ t.drop (pr + 1).toNat

/-- `do ++pi; while (DOUBLE_LT(v[*pi], vp))`. -/
def scanUp (v : List PFloat) (t : List ℕ) (vp : PFloat) : ℕ → ℤ → ℤ
  | 0, i => i + 1
  | fuel + 1, i =>
    let i' := i + 1
    if npSortLT (valAt v t i') vp then scanUp v t vp fuel i' else i'

/-- `do --pj; while (DOUBLE_LT(vp, v[*pj]))`. -/
def scanDown (v : List PFloat) (t : List ℕ) (vp : PFloat) : ℕ → ℤ → ℤ
  | 0, i => i - 1
  | fuel + 1, i =>
    let i' := i - 1
    if npSortLT vp (valAt v t i') then scanDown v t vp fuel i' else i'

/-- The partition exchange loop. -/
def partScan (v : List PFloat) (vp : PFloat) : ℕ → List ℕ → ℤ → ℤ → List ℕ × ℤ
  | 0, t, pi, _ => (t, pi)
  | fuel + 1, t, pi, pj =>
    let pi' := scanUp v t vp (fuel + 1) pi
    let pj' := scanDown v t vp (fuel + 1) pj
    if pi' ≥ pj' then (t, pi')
    else partScan v vp fuel (swapIdx t pi' pj') pi' pj'

/-- One median-of-three partition of `tosort[pl..pr]`; returns the new index
array and the pivot's final position `pi`. -/
def partitionStep (v : List PFloat) (fuel : ℕ) (t : List ℕ) (pl pr : ℤ) :
    List ℕ × ℤ :=
  let pm := pl + (pr - pl) / 2
  let t := if ltIdx v t pm pl then swapIdx t pm pl else t
  let t := if ltIdx v t pr pm then swapIdx t pr pm else t
  let t := if ltIdx v t pm pl then swapIdx t pm pl else t
  let vp := valAt v t pm
  let t := swapIdx t pm (pr - 1)
  let (t, pi) := partScan v vp fuel t pl (pr - 1)
  let t := swapIdx t pi (pr - 1)
  (t, pi)

/-- Heap cell `a[k]` of the 1-based heap over `tosort[pl..pr]`. -/
def hGet (t : List ℕ) (pl k : ℤ) : ℕ := t.getD (pl + k - 1).toNat 0

/-- Heap cell assignment. -/
def hSet (t : List ℕ) (pl k : ℤ) (x : ℕ) : List ℕ := t.set (pl + k - 1).toNat x

/-- The sift-down loop of numpy's `aheapsort`. -/
def siftDown (v : List PFloat) : ℕ → List ℕ → ℤ → ℤ → ℕ → ℤ → ℤ → List ℕ
  | 0, t, pl, _, tmp, i, _ => hSet t pl i tmp
  | fuel + 1, t, pl, n, tmp, i, j =>
    if j ≤ n then
      let j :=
        if j < n ∧ npSortLT (v.getD (hGet t pl j) PFloat.nan)
            (v.getD (hGet t pl (j + 1)) PFloat.nan) then j + 1 else j
      if npSortLT (v.getD tmp PFloat.nan) (v.getD (hGet t pl j) PFloat.nan) then
        siftDown v fuel (hSet t pl i (hGet t pl j)) pl n tmp j (2 * j)
      else hSet t pl i tmp
    else hSet t pl i tmp

/-- Heap construction phase of `aheapsort`. -/
def aheapsortBuild (v : List PFloat) : ℕ → List ℕ → ℤ → ℤ → ℤ → List ℕ
  | 0, t, _, _, _ => t
  | fuel + 1, t, pl, n, l =>
    if l > 0 then
      let tmp := hGet t pl l
      let t := siftDown v (fuel + 1) t pl n tmp l (2 * l)
      aheapsortBuild v fuel t pl n (l - 1)
    else t

/-- Extraction phase of `aheapsort`. -/
def aheapsortExtract (v : List PFloat) : ℕ → List ℕ → ℤ → ℤ → List ℕ
  | 0, t, _, _ => t
  | fuel + 1, t, pl, n =>
    if n > 1 then
      let tmp := hGet t pl n
      let t := hSet t pl n (hGet t pl 1)
      let n := n - 1
      let t := siftDown v (fuel + 1) t pl n tmp 1 2
      aheapsortExtract v fuel t pl n
    else t

/-- numpy `aheapsort` on `tosort[pl..pr]` (the introsort depth-limit
fallback). -/
def aheapsortRange (v : List PFloat) (t : List ℕ) (pl pr : ℤ) : List ℕ :=
  let n := pr - pl + 1
  let fuel := (n.toNat + 2) * (n.toNat + 2)
  aheapsortExtract v fuel (aheapsortBuild v fuel t pl n (n / 2)) pl n

/-- The main introsort loop of `aquicksort`, with its explicit range stack.
`depth` is numpy's post-decremented `depth_limit`. -/
def aqLoop (v : List PFloat) : ℕ → List ℕ → ℤ → ℤ → ℤ → List (ℤ × ℤ) → List ℕ
  | 0, t, _, _, _, _ => t
  | fuel + 1, t, pl, pr, depth, stack =>
    if pr - pl > 15 then
      if depth < 0 then
        let t := aheapsortRange v t pl pr
        match stack with
        | [] => t
        | (l, r) :: st => aqLoop v fuel t l r (depth - 1) st
      else
        let (t, pi) := partitionStep v (fuel + 1) t pl pr
        if pi - pl < pr - pi then
          aqLoop v fuel t pl (pi - 1) (depth - 1) ((pi + 1, pr) :: stack)
        else
          aqLoop v fuel t (pi + 1) pr (depth - 1) ((pl, pi - 1) :: stack)
    else
      let t := insertionRange v t pl pr
      match stack with
      | [] => t
      | (l, r) :: st => aqLoop v fuel t l r depth st

/-- numpy `argsort(v, kind='quicksort')` (ascending). -/
def aquicksortList (v : List PFloat) : List ℕ :=
  let n := v.length
  aqLoop v ((n + 2) * (n + 2)) (List.range n) 0 ((n : ℤ) - 1)
    (2 * (Nat.log2 n : ℤ)) []

/-- numpy boolean selection `xs[~mask]`. -/
def boolMaskKeep {α : Type} (xs : List α) (mask : List Bool) : List α :=
  ((xs.zip mask).filter (fun p => !p.2)).map (fun p => p.1)

/-- numpy boolean selection `xs[mask]`. -/
def boolMaskSel {α : Type} (xs : List α) (mask : List Bool) : List α :=
  ((xs.zip mask).filter (fun p => p.2)).map (fun p => p.1)

/-- pandas `nargsort(values, kind='quicksort', ascending=False,
na_position='last')`: NaNs are split off, the non-NaN values and their
indices are reversed, argsorted ascending, mapped back, reversed again, and
the NaN positions are appended. -/
def pandasDescArgsort (vals : List PFloat) : List ℕ :=
  let n := vals.length
  let mask := vals.map PFloat.isNan
  let nonNans := boolMaskKeep vals mask
  let nonNanIdx := boolMaskKeep (List.range n) mask
  let nanIdx := boolMaskSel (List.range n) mask
  let asc := aquicksortList nonNans.reverse
  let indexer := (asc.map (fun j => nonNanIdx.reverse.getD j 0)).reverse
  indexer ++ nanIdx

/-- Whole-column coercion: `none` as soon as one cell fails (one raising
cell aborts the column operation, as in pandas). -/
def colMapM {α β : Type} (f : α → Option β) : List α → Option (List β)
  | [] => some []
  | x :: xs => do
    let y ← f x
    let ys ← colMapM f xs
    some (y :: ys)

/-- A cell as a float (the value column is float-typed after conversion;
other cell kinds raise, modelled as `none`). -/
def asFloat : PyVal → Option PFloat
  | .f x => some x
  | _ => none

/-- A cell as a string (the `.str` accessor requires an object column). -/
def asString : PyVal → Option String
  | .s x => some x
  | _ => none

/-- Line 145: `df.sort_values('Value ($)', ascending=False)`. -/
def sortValuesDesc (df : DataFrame) : Option DataFrame := do
  let col ← df.getCol "Value ($)"
  let vals ← colMapM asFloat col
  some (df.takeRows (pandasDescArgsort vals))

/-! ## Market-cap resolution (`_get_market_cap`, lines 37-56)

Alpha Vantage is modelled as an oracle indexed by the number of external
calls made so far; a call either raises (`.error`) or returns a company
overview whose `MarketCapitalization` field may be absent. -/

/-- An Alpha Vantage company overview (only the field the code reads). -/
structure Overview where
  marketCapField : Option String
deriving DecidableEq, Repr

/-- `self._market_cap_cache` plus a log of the external lookups performed. -/
structure MCState where
  cache : List (String × Frac)
  calls : List String
deriving DecidableEq, Repr

/-- `ticker in self._market_cap_cache` / cache read. -/
def lookupCache (c : List (String × Frac)) (t : String) : Option Frac :=
  (c.find? (fun p => p.1 == t)).map (fun p => p.2)

/-- `_get_market_cap`: short-circuit without a key; cache hit; otherwise one
external lookup.  `float(overview.get('MarketCapitalization', 0))` is
cached only when `float` does not raise; a raising lookup (or a
non-numeric field) is caught at line 54 and returns `0` without caching. -/
def getMarketCap (hasKey : Bool) (oracle : ℕ → Except Unit Overview)
    (st : MCState) (t : String) : Frac × MCState :=
  if !hasKey then (Frac.ofInt 0, st)
  else
    match lookupCache st.cache t with
    | some v => (v, st)
    | none =>
      let n := st.calls.length
      let st' := { st with calls := st.calls ++ [t] }
      match oracle n with
      | .error _ => (Frac.ofInt 0, st')
      | .ok ov =>
        match ov.marketCapField with
        | none => (Frac.ofInt 0, { st' with cache := st'.cache ++ [(t, Frac.ofInt 0)] })
        | some s =>
          match parseFloat s with
          | none => (Frac.ofInt 0, st')
          | some q => (q, { st' with cache := st'.cache ++ [(t, q)] })

/-! ## `process_insider_data` (lines 122-151)

Each column assignment is atomic (pandas converts the whole column before
assigning), but the assignments are sequential in-place mutations of the
caller's DataFrame; a failure part-way leaves the earlier mutations in
place and the `except` at line 149 returns `None`. -/

/-- `pd.to_datetime` on one cell (datetimes pass through). -/
def toDatetimeCell : PyVal → Option PyVal
  | .s s => (parseDate s).map PyVal.d
  | .d q => some (.d q)
  | .f _ => none

/-- Line 132: `df['Value ($)'].str.replace(',', '').astype(float)` on one
cell — only the comma is stripped. -/
def cleanValueCell (s : String) : Option Frac :=
  parseFloat (pyReplace s "," "")

/-- Line 133: `df['Cost'].str.replace('$', '').str.replace(',', '')
.astype(float)` on one cell. -/
def cleanCostCell (s : String) : Option Frac :=
  parseFloat (pyReplace (pyReplace s "$" "") "," "")

/-- Line 129: convert the Date column (atomic: assigned only if the whole
column parses). -/
def stepDate (df : DataFrame) : Option DataFrame := do
  let dcol ← df.getCol "Date"
  let dcol' ← colMapM toDatetimeCell dcol
  some (df.setCol "Date" dcol')

/-- Line 132: convert the `Value ($)` column. -/
def stepValue (df : DataFrame) : Option DataFrame := do
  let vcol ← df.getCol "Value ($)"
  let vstrs ← colMapM asString vcol
  let vq ← colMapM cleanValueCell vstrs
  some (df.setCol "Value ($)" (vq.map (fun q => PyVal.f (.finite q))))

/-- Line 133: convert the `Cost` column. -/
def stepCost (df : DataFrame) : Option DataFrame := do
  let ccol ← df.getCol "Cost"
  let cstrs ← colMapM asString ccol
  let cq ← colMapM cleanCostCell cstrs
  some (df.setCol "Cost" (cq.map (fun q => PyVal.f (.finite q))))

/-- Line 138: `df['Market Cap'] = df['Ticker'].apply(self._get_market_cap)`
— a sequential fold over the ticker column threading the memo state. -/
def stepMarketCap (oracle : ℕ → Except Unit Overview) (df : DataFrame)
    (mc : MCState) : Option (DataFrame × MCState) := do
  let tcol ← df.getCol "Ticker"
  let ts ← colMapM asString tcol
  let r := ts.foldl
    (fun acc t =>
      let (v, m') := getMarketCap true oracle acc.2 t
      (acc.1 ++ [v], m'))
    (([] : List Frac), mc)
  some (df.setCol "Market Cap" (r.1.map (fun q => PyVal.f (.finite q))), r.2)

/-- Line 139: `df['Trade % of Market Cap'] =
(df['Value ($)'] / df['Market Cap']) * 100` — elementwise IEEE division
then scaling; there is no zero guard. -/
def stepPct (df : DataFrame) : Option DataFrame := do
  let vcol ← df.getCol "Value ($)"
  let mcol ← df.getCol "Market Cap"
  let vs ← colMapM asFloat vcol
  let ms ← colMapM asFloat mcol
  some (df.setCol "Trade % of Market Cap"
    (List.zipWith (fun v m => PyVal.f (PFloat.mul (PFloat.div v m) (PFloat.fin 100))) vs ms))

/-- Outcome of `process_insider_data`: the returned value, the caller's
DataFrame object after the call (in-place mutations included), and the
memo state. -/
structure ProcResult where
  res : Option DataFrame
  df : DataFrame
  mc : MCState
deriving DecidableEq, Repr

/-- `process_insider_data` (lines 122-151). -/
def processInsiderData (hasKey : Bool) (oracle : ℕ → Except Unit Overview)
    (df0 : DataFrame) (mc : MCState) : ProcResult :=
  if df0.isEmptyDf then ⟨none, df0, mc⟩
  else
    match stepDate df0 with
    | none => ⟨none, df0, mc⟩
    | some df1 =>
      match stepValue df1 with
      | none => ⟨none, df1, mc⟩
      | some df2 =>
        match stepCost df2 with
        | none => ⟨none, df2, mc⟩
        | some df3 =>
          if hasKey then
            match stepMarketCap oracle df3 mc with
            | none => ⟨none, df3, mc⟩
            | some (df4, mc') =>
              match stepPct df4 with
              | none => ⟨none, df4, mc'⟩
              | some df5 =>
                match sortValuesDesc df5 with
                | none => ⟨none, df5, mc'⟩
                | some sorted => ⟨some sorted, df5, mc'⟩
          else
            let df4 := df3.setCol "Market Cap"
              (List.replicate df3.nrows (PyVal.f (PFloat.fin 0)))
            let df5 := df4.setCol "Trade % of Market Cap"
              (List.replicate df3.nrows (PyVal.f (PFloat.fin 0)))
            match sortValuesDesc df5 with
            | none => ⟨none, df5, mc⟩
            | some sorted => ⟨some sorted, df5, mc⟩

/-! ## The tracker state and `fetch_insider_data` (lines 18-120)

The heap models Python object identity for DataFrames: an address is an
index, `df.copy()` allocates a fresh address with equal contents, and the
cache holds an address (or `none` for Python `None`). -/

/-- The mutable state of an `InsiderTracker` plus its object heap. -/
structure TrackerState where
  heap : List DataFrame
  cachedData : Option ℕ
  lastFetchTime : Option Frac
  mc : MCState
  hasKey : Bool
  log : List String
deriving DecidableEq, Repr

/-- Dereference an address (valid addresses only arise from allocation). -/
def heapGet (st : TrackerState) (a : ℕ) : DataFrame := st.heap.getD a ⟨[]⟩

/-- Allocate a fresh object (`df.copy()`, or a newly built frame). -/
def allocDf (st : TrackerState) (df : DataFrame) : ℕ × TrackerState :=
  (st.heap.length, { st with heap := st.heap ++ [df] })

/-- Overwrite the object at an address (models caller-side mutation of a
returned DataFrame). -/
def heapSet (st : TrackerState) (a : ℕ) (df : DataFrame) : TrackerState :=
  { st with heap := st.heap.set a df }

/-- `self._cache_duration = timedelta(minutes=5)`, on the minute timeline. -/
def cacheDurationMinutes : Frac := Frac.ofInt 5

/-- Lines 61-62: the cached data may be used (`use_cache` apart). -/
def cacheFresh (now : Frac) (st : TrackerState) : Bool :=
  match st.cachedData, st.lastFetchTime with
  | some _, some t => Frac.blt (Frac.sub now t) cacheDurationMinutes
  | _, _ => false

/-- The `try`/`except` body of `fetch_insider_data` (lines 66-120): fetch,
extract, process, update the cache.  A processing failure stores `None` in
`self._cached_data` and still updates `self._last_fetch_time`; the final
`self._cached_data.copy()` then raises `AttributeError`, caught by the same
`except`, so the call returns `None` with the cache cleared. -/
def fetchFresh (now : Frac) (net : Except Unit Html)
    (oracle : ℕ → Except Unit Overview) (st : TrackerState) :
    Option ℕ × TrackerState :=
  match extractStage net with
  | none => (none, { st with log := st.log ++ ["Error fetching data"] })
  | some df =>
    let pr := processInsiderData st.hasKey oracle df st.mc
    match pr.res with
    | none =>
      let st' :=
        { st with
            cachedData := none,
            lastFetchTime := some now,
            mc := pr.mc,
            log := st.log ++ ["Error fetching data"] }
      (none, st')
    | some out =>
      let (a, st1) := allocDf { st with mc := pr.mc } out
      let st2 :=
        { st1 with
            cachedData := some a,
            lastFetchTime := some now,
            log := st1.log ++ ["Successfully fetched insider trading records"] }
      let (b, st3) := allocDf st2 (heapGet st2 a)
      (some b, st3)

/-- `fetch_insider_data` (lines 58-120). -/
def fetchInsiderData (now : Frac) (useCache : Bool) (net : Except Unit Html)
    (oracle : ℕ → Except Unit Overview) (st : TrackerState) :
    Option ℕ × TrackerState :=
  if useCache && cacheFresh now st then
    match st.cachedData with
    | some a =>
      let (b, st') := allocDf st (heapGet st a)
      (some b, { st' with log := st'.log ++ ["Using cached insider trading data"] })
    | none => (none, st)
  else fetchFresh now net oracle st

/-- A query's outcome: `.error` is an uncaught exception, `.ok none` is
Python `None`, `.ok (some a)` is a DataFrame at address `a`. -/
abbrev QueryOut := Except Unit (Option ℕ)

/-- The shared prologue of every query (`df = self._cached_data; if df is
None: df = self.fetch_insider_data()`). -/
def ensureData (now : Frac) (net : Except Unit Html)
    (oracle : ℕ → Except Unit Overview) (st : TrackerState) :
    Option ℕ × TrackerState :=
  match st.cachedData with
  | some a => (some a, st)
  | none => fetchInsiderData now true net oracle st

/-- `timedelta(days=d)` on the minute timeline. -/
def minutesPerDay : Frac := Frac.ofInt 1440

/-- `get_recent_trades` (lines 153-164). -/
def getRecentTrades (days minValue : Frac) (now : Frac) (net : Except Unit Html)
    (oracle : ℕ → Except Unit Overview) (st : TrackerState) :
    QueryOut × TrackerState :=
  let r := ensureData now net oracle st
  match r.1 with
  | none => (.ok none, r.2)
  | some a =>
    let st := r.2
    let df := heapGet st a
    if df.isEmptyDf then (.ok none, st)
    else
      let cutoff := Frac.sub now (Frac.mul days minutesPerDay)
      match df.getCol "Date", df.getCol "Value ($)" with
      | some dcol, some vcol =>
        match colMapM (fun c => match c with | PyVal.d q => some q | _ => none) dcol,
              colMapM asFloat vcol with
        | some ds, some vs =>
          let mask := List.zipWith
            (fun q x => Frac.blt cutoff q && PFloat.geF x minValue) ds vs
          let (b, st') := allocDf st (df.maskRows mask)
          (.ok (some b), st')
        | _, _ => (.error (), st)
      | _, _ => (.error (), st)

/-- `isin` membership of a cell in a list of strings (never raises). -/
def cellIsin (c : PyVal) (types : List String) : Bool :=
  types.any (fun ty => c == PyVal.s ty)

/-- `get_trades_by_type` (lines 166-178); the string/list coercion is the
caller's, the model takes the list. -/
def getTradesByType (types : List String) (now : Frac) (net : Except Unit Html)
    (oracle : ℕ → Except Unit Overview) (st : TrackerState) :
    QueryOut × TrackerState :=
  let r := ensureData now net oracle st
  match r.1 with
  | none => (.ok none, r.2)
  | some a =>
    let st := r.2
    let df := heapGet st a
    if df.isEmptyDf then (.ok none, st)
    else
      match df.getCol "Transaction" with
      | some tcol =>
        let mask := tcol.map (fun c => cellIsin c types)
        let (b, st') := allocDf st (df.maskRows mask)
        (.ok (some b), st')
      | none => (.error (), st)

/-- `get_trades_by_market_cap_percent` (lines 180-193).  Without an API key
the call returns `None` — the same no-result value a failed fetch returns —
after logging a warning, before any cache access. -/
def getTradesByMarketCapPercent (minPercent : Frac) (now : Frac)
    (net : Except Unit Html) (oracle : ℕ → Except Unit Overview)
    (st : TrackerState) : QueryOut × TrackerState :=
  if !st.hasKey then
    let st' :=
      { st with
          log := st.log ++
            ["Market cap filtering not available without Alpha Vantage API key"] }
    (.ok none, st')
  else
    let r := ensureData now net oracle st
    match r.1 with
    | none => (.ok none, r.2)
    | some a =>
      let st := r.2
      let df := heapGet st a
      if df.isEmptyDf then (.ok none, st)
      else
        match df.getCol "Trade % of Market Cap" with
        | some pcol =>
          match colMapM asFloat pcol with
          | some ps =>
            let mask := ps.map (fun p => PFloat.geF p minPercent)
            let (b, st') := allocDf st (df.maskRows mask)
            (.ok (some b), st')
          | none => (.error (), st)
        | none => (.error (), st)

/-- The optional criteria of `filter_trades` (a key's absence is `none`). -/
structure Filters where
  min_value : Option Frac := none
  max_days : Option Frac := none
  transaction_types : Option (List String) := none
  min_market_cap_percent : Option Frac := none
  tickers : Option (List String) := none
deriving DecidableEq, Repr

/-- Apply one boolean-mask filter, allocating the masked frame (`df[mask]`
is always a fresh object); `none` from the mask builder is a raised
exception. -/
def applyMaskFilter (st : TrackerState) (a : ℕ)
    (mkMask : DataFrame → Option (List Bool)) : Except Unit (ℕ × TrackerState) :=
  let df := heapGet st a
  match mkMask df with
  | none => .error ()
  | some mask =>
    let (b, st') := allocDf st (df.maskRows mask)
    .ok (b, st')

/-- Mask for `df['Value ($)'] >= v`. -/
def maskMinValue (v : Frac) (df : DataFrame) : Option (List Bool) := do
  let col ← df.getCol "Value ($)"
  let xs ← colMapM asFloat col
  some (xs.map (fun x => PFloat.geF x v))

/-- Mask for `df['Date'] > now - timedelta(days=d)`. -/
def maskMaxDays (d now : Frac) (df : DataFrame) : Option (List Bool) := do
  let col ← df.getCol "Date"
  let ds ← colMapM (fun c => match c with | PyVal.d q => some q | _ => none) col
  let cutoff := Frac.sub now (Frac.mul d minutesPerDay)
  some (ds.map (fun q => Frac.blt cutoff q))

/-- Mask for `df['Transaction'].isin(types)`. -/
def maskTypes (types : List String) (df : DataFrame) : Option (List Bool) := do
  let col ← df.getCol "Transaction"
  some (col.map (fun c => cellIsin c types))

/-- Mask for `df['Trade % of Market Cap'] >= p`. -/
def maskMinPct (p : Frac) (df : DataFrame) : Option (List Bool) := do
  let col ← df.getCol "Trade % of Market Cap"
  let xs ← colMapM asFloat col
  some (xs.map (fun x => PFloat.geF x p))

/-- Mask for `df['Ticker'].isin(tickers)`. -/
def maskTickers (tickers : List String) (df : DataFrame) : Option (List Bool) := do
  let col ← df.getCol "Ticker"
  some (col.map (fun c => cellIsin c tickers))

/-- `filter_trades` (lines 195-230): the recognised criteria are applied in
source order, each rebinding `df` to a freshly allocated masked frame; with
no recognised criterion present the cached object itself is returned. -/
def filterTrades (fs : Filters) (now : Frac) (net : Except Unit Html)
    (oracle : ℕ → Except Unit Overview) (st : TrackerState) :
    QueryOut × TrackerState :=
  let r := ensureData now net oracle st
  match r.1 with
  | none => (.ok none, r.2)
  | some a0 =>
    let st0 := r.2
    if (heapGet st0 a0).isEmptyDf then (.ok none, st0)
    else
      let r1 : Except Unit (ℕ × TrackerState) :=
        match fs.min_value with
        | none => .ok (a0, st0)
        | some v => applyMaskFilter st0 a0 (maskMinValue v)
      match r1 with
      | .error _ => (.error (), st0)
      | .ok (a1, st1) =>
        let r2 : Except Unit (ℕ × TrackerState) :=
          match fs.max_days with
          | none => .ok (a1, st1)
          | some d => applyMaskFilter st1 a1 (maskMaxDays d now)
        match r2 with
        | .error _ => (.error (), st1)
        | .ok (a2, st2) =>
          let r3 : Except Unit (ℕ × TrackerState) :=
            match fs.transaction_types with
            | none => .ok (a2, st2)
            | some ts => applyMaskFilter st2 a2 (maskTypes ts)
          match r3 with
          | .error _ => (.error (), st2)
          | .ok (a3, st3) =>
            let r4 : Except Unit (ℕ × TrackerState) :=
              match fs.min_market_cap_percent with
              | none => .ok (a3, st3)
              | some p => if st3.hasKey then applyMaskFilter st3 a3 (maskMinPct p)
                          else .ok (a3, st3)
            match r4 with
            | .error _ => (.error (), st3)
            | .ok (a4, st4) =>
              let r5 : Except Unit (ℕ × TrackerState) :=
                match fs.tickers with
                | none => .ok (a4, st4)
                | some ts => applyMaskFilter st4 a4 (maskTickers ts)
              match r5 with
              | .error _ => (.error (), st4)
              | .ok (a5, st5) => (.ok (some a5), st5)

/-! ## Concrete fixtures for witnesses and counterexamples -/

/-- An always-raising Alpha Vantage oracle. -/
def oracleErr : ℕ → Except Unit Overview := fun _ => .error ()

/-- An oracle whose overviews report a market capitalization of `0`. -/
def oracleZero : ℕ → Except Unit Overview := fun _ => .ok ⟨some "0"⟩

/-- The empty memo state. -/
def mc0 : MCState := ⟨[], []⟩

/-- Ticker names `A`, `B`, `C`, ... -/
def tick (n : ℕ) : String := String.mk [Char.ofNat (65 + n)]

/-- A `th` cell with one text node. -/
def thCell (s : String) : HCell := ⟨true, [s]⟩

/-- A `td` cell with one text node. -/
def tdCell (s : String) : HCell := ⟨false, [s]⟩

/-- A data row of `td` cells. -/
def trOf (cells : List String) : HtmlTr := ⟨false, cells.map tdCell⟩

/-- A previously cached (already processed) one-row frame. -/
def dfOld : DataFrame :=
  ⟨[("Ticker", [PyVal.s "OLD"]),
    ("Date", [PyVal.d (Frac.ofInt 10000)]),
    ("Transaction", [PyVal.s "Buy"]),
    ("Cost", [PyVal.f (PFloat.fin 10)]),
    ("Value ($)", [PyVal.f (PFloat.fin 5)]),
    ("Market Cap", [PyVal.f (PFloat.fin 0)]),
    ("Trade % of Market Cap", [PyVal.f (PFloat.fin 0)])]⟩

/-- A page whose table extracts cleanly but whose `Value ($)` cell `"x"`
cannot be coerced to float, so processing fails. -/
def tableBadValue : HtmlTable :=
  ⟨[⟨false, [thCell "Ticker", thCell "Date", thCell "Transaction",
             thCell "Cost", thCell "Value ($)"]⟩,
    trOf ["A", "1", "Buy", "10", "x"]]⟩

/-- The page around `tableBadValue`. -/
def htmlBad : Html := ⟨some tableBadValue, none⟩

/-- A tracker holding a valid cached dataset fetched at minute `0`. -/
def stCached : TrackerState :=
  ⟨[dfOld], some 0, some (Frac.ofInt 0), mc0, false, []⟩

/-- `stCached` with an Alpha Vantage key configured. -/
def stCachedKey : TrackerState :=
  ⟨[dfOld], some 0, some (Frac.ofInt 0), mc0, true, []⟩

/-- One raw trade row with value `"100"` (used with `oracleZero`, whose
market cap of `0` makes the percentage computation divide by zero). -/
def dfDivZero : DataFrame :=
  ⟨[("Ticker", [PyVal.s "A"]),
    ("Date", [PyVal.s "1"]),
    ("Transaction", [PyVal.s "Buy"]),
    ("Cost", [PyVal.s "10"]),
    ("Value ($)", [PyVal.s "100"])]⟩

/-- One raw row whose `Value ($)` cell is the currency string
`"$1,234.50"`. -/
def dfDollarValue : DataFrame :=
  ⟨[("Ticker", [PyVal.s "A"]),
    ("Date", [PyVal.s "1"]),
    ("Transaction", [PyVal.s "Buy"]),
    ("Cost", [PyVal.s "10"]),
    ("Value ($)", [PyVal.s "$1,234.50"])]⟩

/-- One raw row with `"$1,234.50"` in `Cost` and `"1,234.50"` in
`Value ($)`. -/
def dfDollarCost : DataFrame :=
  ⟨[("Ticker", [PyVal.s "A"]),
    ("Date", [PyVal.s "1"]),
    ("Transaction", [PyVal.s "Buy"]),
    ("Cost", [PyVal.s "$1,234.50"]),
    ("Value ($)", [PyVal.s "1,234.50"])]⟩

/-- One raw row whose date parses but whose value does not: processing
fails after the Date column has already been converted in place. -/
def dfPartial : DataFrame :=
  ⟨[("Ticker", [PyVal.s "A"]),
    ("Date", [PyVal.s "1"]),
    ("Transaction", [PyVal.s "Buy"]),
    ("Cost", [PyVal.s "10"]),
    ("Value ($)", [PyVal.s "x"])]⟩

/-- Seventeen raw rows, all with trade value `5` and distinct tickers
`A`..`Q` (17 rows exceed numpy's insertion-sort cutoff, so the quicksort
partition reorders the equal values). -/
def df17 : DataFrame :=
  ⟨[("Ticker", (List.range 17).map (fun i => PyVal.s (tick i))),
    ("Date", (List.range 17).map (fun _ => PyVal.s "1")),
    ("Transaction", (List.range 17).map (fun _ => PyVal.s "Buy")),
    ("Cost", (List.range 17).map (fun _ => PyVal.s "1")),
    ("Value ($)", (List.range 17).map (fun _ => PyVal.s "5"))]⟩

/-- A table whose first row has no cells (so the header list is empty) and
whose single data row consists of one `th` cell, hence zero `td` cells: its
cell count equals the header count, yet line 103 drops it because `row` is
falsy. -/
def tEdge : HtmlTable := ⟨[⟨false, []⟩, ⟨false, [thCell "x"]⟩]⟩

/-- A two-column table with ten data rows of which exactly one (the sixth)
is malformed. -/
def tTen : HtmlTable :=
  ⟨[⟨false, [thCell "H1", thCell "H2"]⟩] ++
    ((List.range 5).map (fun i => trOf [tick i, "x"])) ++
    [trOf ["bad"]] ++
    ((List.range 4).map (fun i => trOf [tick (5 + i), "y"]))⟩

/-- The `filters` dictionary with no recognised key. -/
def noFilters : Filters := {}

/-- The ascending stable-argsort ordering of positions `a`, `b` relative to
the keys `qs`: strictly smaller key first, ties by original position. -/
def ascStable (qs : List Frac) (a b : ℕ) : Prop :=
  (qs.getD a (Frac.ofInt 0)).toRat < (qs.getD b (Frac.ofInt 0)).toRat ∨
    ((qs.getD a (Frac.ofInt 0)).toRat = (qs.getD b (Frac.ofInt 0)).toRat ∧ a < b)

/-- The descending stable ordering claimed for the processed dataset:
strictly larger key first, ties by original position. -/
def descStable (qs : List Frac) (a b : ℕ) : Prop :=
  (qs.getD b (Frac.ofInt 0)).toRat < (qs.getD a (Frac.ofInt 0)).toRat ∨
    ((qs.getD b (Frac.ofInt 0)).toRat = (qs.getD a (Frac.ofInt 0)).toRat ∧ a < b)

/-! # Theorems

Helper lemmas first, then one theorem per claim (with its witness or
counterexample). -/

theorem Frac.den_pos (a : Frac) : (0 : ℤ) < a.den := by
  have : (0 : ℤ) ≤ (a.den1 : ℤ) := Int.ofNat_nonneg _
  simp only [Frac.den]; omega

theorem Frac.toRat_den_pos (a : Frac) : (0 : ℚ) < (a.den : ℚ) := by
  exact_mod_cast Frac.den_pos a

theorem Frac.blt_iff (a b : Frac) : Frac.blt a b = true ↔ a.toRat < b.toRat := by
  simp only [Frac.blt, Frac.toRat, decide_eq_true_eq]
  rw [div_lt_div_iff₀ (Frac.toRat_den_pos a) (Frac.toRat_den_pos b)]
  constructor
  · intro h; exact_mod_cast h
  · intro h; exact_mod_cast h

theorem Frac.toRat_eq_of_not_blt {a b : Frac}
    (h₁ : Frac.blt a b = false) (h₂ : Frac.blt b a = false) :
    a.toRat = b.toRat := by
  have l₁ : ¬ a.toRat < b.toRat := by rw [← Frac.blt_iff]; simp [h₁]
  have l₂ : ¬ b.toRat < a.toRat := by rw [← Frac.blt_iff]; simp [h₂]
  exact le_antisymm (not_lt.mp l₂) (not_lt.mp l₁)

theorem colMapM_length {α β : Type} (f : α → Option β) :
    ∀ {xs : List α} {ys : List β}, colMapM f xs = some ys → ys.length = xs.length := by
  intro xs
  induction xs with
  | nil => intro ys h; simp only [colMapM, Option.some.injEq] at h; simp [← h]
  | cons x xs ih =>
    intro ys h
    simp only [colMapM, Option.bind_eq_bind, Option.bind_eq_some, Option.some.injEq] at h
    obtain ⟨y, _, ys', hys', rfl⟩ := h
    simp [ih hys']

theorem colMapM_get? {α β : Type} (f : α → Option β) :
    ∀ {xs : List α} {ys : List β}, colMapM f xs = some ys →
      ∀ {i : ℕ} {x : α}, xs.get? i = some x → ∃ y, f x = some y ∧ ys.get? i = some y := by
  intro xs
  induction xs with
  | nil => intro ys _ i x h; simp [List.get?] at h
  | cons a xs ih =>
    intro ys h i x hx
    simp only [colMapM, Option.bind_eq_bind, Option.bind_eq_some, Option.some.injEq] at h
    obtain ⟨y, hy, ys', hys', rfl⟩ := h
    cases i with
    | zero =>
      simp only [List.get?] at hx
      cases hx
      exact ⟨y, hy, rfl⟩
    | succ i =>
      simp only [List.get?] at hx ⊢
      exact ih hys' hx

theorem colMapM_map_some {α β : Type} (f : α → Option β) (g : β → α)
    (hg : ∀ b, f (g b) = some b) :
    ∀ (ys : List β), colMapM f (ys.map g) = some ys := by
  intro ys
  induction ys with
  | nil => simp [colMapM]
  | cons y ys ih => simp [colMapM, hg, ih]

theorem lookupCache_append_self {c : List (String × Frac)} {t : String}
    (h : lookupCache c t = none) (q : Frac) :
    lookupCache (c ++ [(t, q)]) t = some q := by
  simp only [lookupCache, Option.map_eq_none'] at h
  simp only [lookupCache, List.find?_append, h, Option.none_or]
  simp [List.find?]

theorem find?_upd_same (n : String) (vals : List PyVal) :
    ∀ (cols : List (String × List PyVal)),
      (cols.find? (fun c => c.1 == n)).isSome = true →
      (cols.map (fun c => if c.1 == n then (c.1, vals) else c)).find?
          (fun c => c.1 == n) = some (n, vals) := by
  intro cols
  induction cols with
  | nil => intro h; simp at h
  | cons c cs ih =>
    intro h
    by_cases hc : (c.1 == n) = true
    · have hn : c.1 = n := eq_of_beq hc
      simp only [List.map_cons, if_pos hc]
      simp [List.find?_cons, hc, hn]
    · simp only [List.find?_cons, hc, Bool.false_eq_true, if_neg] at h
      simp only [List.map_cons, if_neg hc]
      rw [List.find?_cons]
      simp only [hc]
      exact ih (by simpa using h)

theorem find?_upd_ne (n m : String) (hnm : m ≠ n) (vals : List PyVal) :
    ∀ (cols : List (String × List PyVal)),
      Option.map (fun c => c.2)
          ((cols.map (fun c => if c.1 == n then (c.1, vals) else c)).find?
            (fun c => c.1 == m))
        = Option.map (fun c => c.2) (cols.find? (fun c => c.1 == m)) := by
  intro cols
  induction cols with
  | nil => simp
  | cons c cs ih =>
    by_cases hc : (c.1 == n) = true
    · have hn : c.1 = n := eq_of_beq hc
      have hm : (c.1 == m) = false := by
        simp only [beq_eq_false_iff_ne, ne_eq, hn]
        exact fun hmm => hnm hmm.symm
      simp only [List.map_cons, if_pos hc]
      simp only [List.find?_cons, hm]
      exact ih
    · simp only [List.map_cons, if_neg hc]
      by_cases hm : (c.1 == m) = true
      · simp [List.find?_cons, hm]
      · simp only [Bool.not_eq_true] at hm
        simp only [List.find?_cons, hm]
        exact ih

theorem DataFrame.getCol_setCol_same (df : DataFrame) (n : String)
    (vals : List PyVal) : (df.setCol n vals).getCol n = some vals := by
  unfold DataFrame.setCol DataFrame.getCol
  by_cases h : (df.cols.find? (fun c => c.1 == n)).isSome
  · simp only [h, if_true]
    rw [find?_upd_same n vals df.cols h]
    rfl
  · simp only [h, if_false]
    have hnone : df.cols.find? (fun c => c.1 == n) = none := by
      cases hx : df.cols.find? (fun c => c.1 == n) with
      | none => rfl
      | some v => rw [hx] at h; simp at h
    simp [List.find?_append, hnone, List.find?]

theorem DataFrame.getCol_setCol_ne (df : DataFrame) {n m : String} (hnm : m ≠ n)
    (vals : List PyVal) : (df.setCol n vals).getCol m = df.getCol m := by
  unfold DataFrame.setCol DataFrame.getCol
  by_cases h : (df.cols.find? (fun c => c.1 == n)).isSome
  · simp only [h, if_true]
    exact find?_upd_ne n m hnm vals df.cols
  · simp only [h, if_false]
    have hm : ((n, vals).1 == m) = false := by
      simp only [beq_eq_false_iff_ne, ne_eq]
      exact fun hmm => hnm hmm.symm
    simp [List.find?_append, List.find?, hm]

/-! ### C3: market-cap memoisation -/

/-- C3 (counterexample): with an always-raising provider, two calls for the
same ticker perform two external lookups and cache nothing — the claim's
"the outcome of the first lookup … is stored in the cache regardless of
success or failure" and "at most one external lookup" both fail. -/
theorem C3_counterexample :
    (getMarketCap true oracleErr mc0 "AAPL").2.cache = [] ∧
    (getMarketCap true oracleErr mc0 "AAPL").2.calls = ["AAPL"] ∧
    (getMarketCap true oracleErr
        (getMarketCap true oracleErr mc0 "AAPL").2 "AAPL").2.calls
      = ["AAPL", "AAPL"] ∧
    (getMarketCap true oracleErr mc0 "AAPL").1 = Frac.ofInt 0 := by
  decide

/-- C3 (amended): `_get_market_cap` short-circuits to `0` without a key and
answers cache hits without an external call; on a miss it performs one
lookup, and only a lookup that does not raise and whose capitalisation
field parses (an absent field counts as `0`) is stored in the cache — a
later call then returns the cached value with no further lookup.  A
raising lookup returns `0` uncached, so the next call for that ticker
looks up again. -/
theorem C3_memoisation (oracle : ℕ → Except Unit Overview) (st : MCState)
    (t : String) :
    (getMarketCap false oracle st t = (Frac.ofInt 0, st)) ∧
    (∀ v, lookupCache st.cache t = some v →
      getMarketCap true oracle st t = (v, st)) ∧
    (∀ ov q, lookupCache st.cache t = none →
      oracle st.calls.length = .ok ov →
      ((ov.marketCapField = none ∧ q = Frac.ofInt 0) ∨
        (∃ s, ov.marketCapField = some s ∧ parseFloat s = some q)) →
      getMarketCap true oracle st t
        = (q, ⟨st.cache ++ [(t, q)], st.calls ++ [t]⟩) ∧
      getMarketCap true oracle ⟨st.cache ++ [(t, q)], st.calls ++ [t]⟩ t
        = (q, ⟨st.cache ++ [(t, q)], st.calls ++ [t]⟩)) ∧
    (lookupCache st.cache t = none →
      oracle st.calls.length = .error () →
      getMarketCap true oracle st t = (Frac.ofInt 0, ⟨st.cache, st.calls ++ [t]⟩)) := by
  refine ⟨?_, ?_, ?_, ?_⟩
  · simp [getMarketCap]
  · intro v hv
    simp [getMarketCap, hv]
  · intro ov q hmiss hok hfield
    constructor
    · simp only [getMarketCap, Bool.not_true, Bool.false_eq_true, if_false, hmiss, hok]
      rcases hfield with ⟨hnone, rfl⟩ | ⟨s, hs, hparse⟩
      · simp [hnone]
      · simp [hs, hparse]
    · have : lookupCache (st.cache ++ [(t, q)]) t = some q :=
        lookupCache_append_self hmiss q
      simp [getMarketCap, this]
  · intro hmiss herr
    simp [getMarketCap, hmiss, herr]

/-- Witness for `C3_memoisation` at a concrete state: a successful lookup
(field `"0"`) is cached and the second call is answered from the cache. -/
theorem C3_memoisation_witness :
    getMarketCap true oracleZero mc0 "IBM"
      = (Frac.ofInt 0, ⟨[("IBM", Frac.ofInt 0)], ["IBM"]⟩) ∧
    getMarketCap true oracleZero ⟨[("IBM", Frac.ofInt 0)], ["IBM"]⟩ "IBM"
      = (Frac.ofInt 0, ⟨[("IBM", Frac.ofInt 0)], ["IBM"]⟩) := by
  have h := (C3_memoisation oracleZero mc0 "IBM").2.2.1
    ⟨some "0"⟩ (Frac.ofInt 0) (by decide) (by decide)
    (Or.inr ⟨"0", rfl, by decide⟩)
  exact ⟨h.1, h.2⟩

/-! ### C8: market-cap filter without a credential -/

/-- C8 (counterexample): with no credential configured,
`get_trades_by_market_cap_percent` returns `None` — the very value used for
fetch failures — not a valid empty dataset, even though a non-empty cached
dataset is available. -/
theorem C8_counterexample :
    (getTradesByMarketCapPercent (Frac.ofInt 1) (Frac.ofInt 1)
        (.error ()) oracleErr stCached).1 = .ok none ∧
    (∀ a, (getTradesByMarketCapPercent (Frac.ofInt 1) (Frac.ofInt 1)
        (.error ()) oracleErr stCached).1 ≠ .ok (some a)) ∧
    stCached.cachedData = some 0 ∧ (heapGet stCached 0).isEmptyDf = false := by
  refine ⟨by decide, ?_, by decide, by decide⟩
  intro a h
  have : (Except.ok none : QueryOut) = .ok (some a) := by
    rw [← h]; decide
  simp at this

/-- C8 (amended): whenever no Alpha Vantage key is configured, every call to
`get_trades_by_market_cap_percent` — regardless of the cache state and of
the requested threshold — logs a warning and returns `None` (the no-result
value), leaving every other component of the state unchanged. -/
theorem C8_no_key_returns_none (minPercent now : Frac) (net : Except Unit Html)
    (oracle : ℕ → Except Unit Overview) (st : TrackerState)
    (h : st.hasKey = false) :
    getTradesByMarketCapPercent minPercent now net oracle st
      = (.ok none,
         { st with log := st.log ++
             ["Market cap filtering not available without Alpha Vantage API key"] }) := by
  simp [getTradesByMarketCapPercent, h]

/-- Witness for `C8_no_key_returns_none` on the concrete cached state. -/
theorem C8_no_key_returns_none_witness :
    getTradesByMarketCapPercent (Frac.ofInt 1) (Frac.ofInt 1)
        (.error ()) oracleErr stCached
      = (.ok none,
         { stCached with log :=
             ["Market cap filtering not available without Alpha Vantage API key"] }) := by
  have h := C8_no_key_returns_none (Frac.ofInt 1) (Frac.ofInt 1)
    (.error ()) oracleErr stCached (by decide)
  simpa [stCached] using h

/-! ### C9: row-arity filtering during extraction -/

/-- C9 (counterexample): in `tEdge` the header list is empty and the single
data row has zero `td` cells, so its cell count equals the header count —
yet line 103 (`if row and len(row) == len(headers)`) drops it because the
empty row is falsy.  "Kept if and only if the cell count matches" fails. -/
theorem C9_counterexample :
    extractHeaders tEdge = [] ∧
    (tEdge.trs.drop 1).map rowCells = [[]] ∧
    ([] : List String).length = (extractHeaders tEdge).length ∧
    extractRows tEdge (extractHeaders tEdge) = [] := by
  decide

/-- C9 (amended): a data row is kept iff it is non-empty and its cell count
matches the header count; dropping is per-row (the kept rows form a sublist
of the raw rows, membership is unchanged otherwise, and the kept count is
the count of well-formed rows).  In the concrete ten-row table `tTen` with
one malformed row, exactly the nine well-formed rows survive, in order. -/
theorem C9_row_filter (t : HtmlTable) (headers : List String) :
    (∀ r, r ∈ extractRows t headers ↔
      r ∈ (t.trs.drop 1).map rowCells ∧ r ≠ [] ∧ r.length = headers.length) ∧
    (extractRows t headers).Sublist ((t.trs.drop 1).map rowCells) ∧
    (extractRows t headers).length =
      ((t.trs.drop 1).map rowCells).countP
        (fun r => !r.isEmpty && r.length == headers.length) ∧
    ((tTen.trs.drop 1).map rowCells).length = 10 ∧
    extractRows tTen (extractHeaders tTen) =
      ((List.range 5).map (fun i => [tick i, "x"])) ++
        ((List.range 4).map (fun i => [tick (5 + i), "y"])) ∧
    (extractRows tTen (extractHeaders tTen)).length = 9 := by
  refine ⟨?_, ?_, ?_, by decide, by decide, by decide⟩
  · intro r
    unfold extractRows
    rw [List.mem_filter]
    simp [List.isEmpty_iff, and_assoc]
  · exact List.filter_sublist _
  · unfold extractRows
    exact (List.countP_eq_length_filter _ _).symm

theorem stepDate_eq_some {df df' : DataFrame} (h : stepDate df = some df') :
    ∃ dcol dcol', df.getCol "Date" = some dcol ∧
      colMapM toDatetimeCell dcol = some dcol' ∧
      df' = df.setCol "Date" dcol' := by
  unfold stepDate at h
  cases h1 : df.getCol "Date" with
  | none => rw [h1] at h; simp at h
  | some dcol =>
    rw [h1] at h
    simp only [Option.bind_eq_bind, Option.some_bind] at h
    cases h2 : colMapM toDatetimeCell dcol with
    | none => rw [h2] at h; simp at h
    | some dcol' =>
      rw [h2] at h
      simp only [Option.bind_eq_bind, Option.some_bind, Option.some.injEq] at h
      exact ⟨dcol, dcol', rfl, h2, h.symm⟩

theorem stepValue_eq_some {df df' : DataFrame} (h : stepValue df = some df') :
    ∃ vcol vstrs vq, df.getCol "Value ($)" = some vcol ∧
      colMapM asString vcol = some vstrs ∧
      colMapM cleanValueCell vstrs = some vq ∧
      df' = df.setCol "Value ($)" (vq.map (fun q => PyVal.f (PFloat.finite q))) := by
  unfold stepValue at h
  cases h1 : df.getCol "Value ($)" with
  | none => rw [h1] at h; simp at h
  | some vcol =>
    rw [h1] at h
    simp only [Option.bind_eq_bind, Option.some_bind] at h
    cases h2 : colMapM asString vcol with
    | none => rw [h2] at h; simp at h
    | some vstrs =>
      rw [h2] at h
      simp only [Option.bind_eq_bind, Option.some_bind] at h
      cases h3 : colMapM cleanValueCell vstrs with
      | none => rw [h3] at h; simp at h
      | some vq =>
        rw [h3] at h
        simp only [Option.bind_eq_bind, Option.some_bind, Option.some.injEq] at h
        exact ⟨vcol, vstrs, vq, rfl, h2, h3, h.symm⟩

theorem stepCost_eq_some {df df' : DataFrame} (h : stepCost df = some df') :
    ∃ ccol cstrs cq, df.getCol "Cost" = some ccol ∧
      colMapM asString ccol = some cstrs ∧
      colMapM cleanCostCell cstrs = some cq ∧
      df' = df.setCol "Cost" (cq.map (fun q => PyVal.f (PFloat.finite q))) := by
  unfold stepCost at h
  cases h1 : df.getCol "Cost" with
  | none => rw [h1] at h; simp at h
  | some ccol =>
    rw [h1] at h
    simp only [Option.bind_eq_bind, Option.some_bind] at h
    cases h2 : colMapM asString ccol with
    | none => rw [h2] at h; simp at h
    | some cstrs =>
      rw [h2] at h
      simp only [Option.bind_eq_bind, Option.some_bind] at h
      cases h3 : colMapM cleanCostCell cstrs with
      | none => rw [h3] at h; simp at h
      | some cq =>
        rw [h3] at h
        simp only [Option.bind_eq_bind, Option.some_bind, Option.some.injEq] at h
        exact ⟨ccol, cstrs, cq, rfl, h2, h3, h.symm⟩

theorem processInsiderData_some (hasKey : Bool) (oracle : ℕ → Except Unit Overview)
    (df0 : DataFrame) (mc : MCState)
    (h : ((processInsiderData hasKey oracle df0 mc).res).isSome = true) :
    ∃ df1 df2 df3,
      df0.isEmptyDf = false ∧
      stepDate df0 = some df1 ∧ stepValue df1 = some df2 ∧ stepCost df2 = some df3 ∧
      (processInsiderData hasKey oracle df0 mc).res
        = sortValuesDesc ((processInsiderData hasKey oracle df0 mc).df) ∧
      ((hasKey = true ∧
          ∃ df4 mc', stepMarketCap oracle df3 mc = some (df4, mc') ∧
            ∃ df5, stepPct df4 = some df5 ∧
              (processInsiderData hasKey oracle df0 mc).df = df5) ∨
        (hasKey = false ∧
          (processInsiderData hasKey oracle df0 mc).df
            = (df3.setCol "Market Cap"
                (List.replicate df3.nrows (PyVal.f (PFloat.fin 0)))).setCol
                "Trade % of Market Cap"
                (List.replicate df3.nrows (PyVal.f (PFloat.fin 0))))) := by
  by_cases h0 : df0.isEmptyDf = true
  · unfold processInsiderData at h
    simp [h0] at h
  · rw [Bool.not_eq_true] at h0
    cases h1 : stepDate df0 with
    | none => unfold processInsiderData at h; simp [h0, h1] at h
    | some df1 =>
      cases h2 : stepValue df1 with
      | none => unfold processInsiderData at h; simp [h0, h1, h2] at h
      | some df2 =>
        cases h3 : stepCost df2 with
        | none => unfold processInsiderData at h; simp [h0, h1, h2, h3] at h
        | some df3 =>
          refine ⟨df1, df2, df3, h0, rfl, h2, h3, ?_⟩
          by_cases hk : hasKey = true
          · cases h4 : stepMarketCap oracle df3 mc with
            | none =>
              unfold processInsiderData at h; simp [h0, h1, h2, h3, hk, h4] at h
            | some p =>
              obtain ⟨df4, mc'⟩ := p
              cases h5 : stepPct df4 with
              | none =>
                unfold processInsiderData at h; simp [h0, h1, h2, h3, hk, h4, h5] at h
              | some df5 =>
                have hdf : (processInsiderData hasKey oracle df0 mc).df = df5 := by
                  unfold processInsiderData
                  simp only [h0, Bool.false_eq_true, if_false, h1, h2, h3, hk, if_true, h4, h5]
                  cases h6 : sortValuesDesc df5 <;> simp
                have hres : (processInsiderData hasKey oracle df0 mc).res
                    = sortValuesDesc df5 := by
                  unfold processInsiderData
                  simp only [h0, Bool.false_eq_true, if_false, h1, h2, h3, hk, if_true, h4, h5]
                  cases h6 : sortValuesDesc df5 <;> simp [h6]
                refine ⟨by rw [hres, hdf], Or.inl ⟨hk, df4, mc', rfl, df5, h5, hdf⟩⟩
          · rw [Bool.not_eq_true] at hk
            have hdf : (processInsiderData hasKey oracle df0 mc).df
                = (df3.setCol "Market Cap"
                    (List.replicate df3.nrows (PyVal.f (PFloat.fin 0)))).setCol
                    "Trade % of Market Cap"
                    (List.replicate df3.nrows (PyVal.f (PFloat.fin 0))) := by
              unfold processInsiderData
              simp only [h0, Bool.false_eq_true, if_false, h1, h2, h3, hk]
              cases h6 : sortValuesDesc ((df3.setCol "Market Cap"
                  (List.replicate df3.nrows (PyVal.f (PFloat.fin 0)))).setCol
                  "Trade % of Market Cap"
                  (List.replicate df3.nrows (PyVal.f (PFloat.fin 0)))) <;> simp
            have hres : (processInsiderData hasKey oracle df0 mc).res
                = sortValuesDesc ((df3.setCol "Market Cap"
                    (List.replicate df3.nrows (PyVal.f (PFloat.fin 0)))).setCol
                    "Trade % of Market Cap"
                    (List.replicate df3.nrows (PyVal.f (PFloat.fin 0)))) := by
              unfold processInsiderData
              simp only [h0, Bool.false_eq_true, if_false, h1, h2, h3, hk]
              cases h6 : sortValuesDesc ((df3.setCol "Market Cap"
                  (List.replicate df3.nrows (PyVal.f (PFloat.fin 0)))).setCol
                  "Trade % of Market Cap"
                  (List.replicate df3.nrows (PyVal.f (PFloat.fin 0)))) <;> simp [h6]
            refine ⟨by rw [hres, hdf], Or.inr ⟨hk, hdf⟩⟩

theorem stepMarketCap_eq_some {oracle : ℕ → Except Unit Overview} {df : DataFrame}
    {mc : MCState} {df4 : DataFrame} {mc' : MCState}
    (h : stepMarketCap oracle df mc = some (df4, mc')) :
    ∃ tcol ts, df.getCol "Ticker" = some tcol ∧ colMapM asString tcol = some ts ∧
      df4 = df.setCol "Market Cap"
        ((ts.foldl (fun acc t =>
            let r := getMarketCap true oracle acc.2 t
            (acc.1 ++ [r.1], r.2)) (([] : List Frac), mc)).1.map
          (fun q => PyVal.f (PFloat.finite q))) ∧
      mc' = (ts.foldl (fun acc t =>
            let r := getMarketCap true oracle acc.2 t
            (acc.1 ++ [r.1], r.2)) (([] : List Frac), mc)).2 := by
  unfold stepMarketCap at h
  cases h1 : df.getCol "Ticker" with
  | none => rw [h1] at h; simp at h
  | some tcol =>
    rw [h1] at h
    simp only [Option.bind_eq_bind, Option.some_bind] at h
    cases h2 : colMapM asString tcol with
    | none => rw [h2] at h; simp at h
    | some ts =>
      rw [h2] at h
      simp only [Option.bind_eq_bind, Option.some_bind, Option.some.injEq,
        Prod.mk.injEq] at h
      refine ⟨tcol, ts, rfl, h2, ?_, ?_⟩
      · rw [← h.1]
      · rw [← h.2]

theorem stepPct_eq_some {df df' : DataFrame} (h : stepPct df = some df') :
    ∃ vcolx mcolx vs ms, df.getCol "Value ($)" = some vcolx ∧
      df.getCol "Market Cap" = some mcolx ∧
      colMapM asFloat vcolx = some vs ∧ colMapM asFloat mcolx = some ms ∧
      df' = df.setCol "Trade % of Market Cap"
        (List.zipWith
          (fun v m => PyVal.f (PFloat.mul (PFloat.div v m) (PFloat.fin 100))) vs ms) := by
  unfold stepPct at h
  cases h1 : df.getCol "Value ($)" with
  | none => rw [h1] at h; simp at h
  | some vcolx =>
    rw [h1] at h
    simp only [Option.bind_eq_bind, Option.some_bind] at h
    cases h2 : df.getCol "Market Cap" with
    | none => rw [h2] at h; simp at h
    | some mcolx =>
      rw [h2] at h
      simp only [Option.bind_eq_bind, Option.some_bind] at h
      cases h3 : colMapM asFloat vcolx with
      | none => rw [h3] at h; simp at h
      | some vs =>
        rw [h3] at h
        simp only [Option.bind_eq_bind, Option.some_bind] at h
        cases h4 : colMapM asFloat mcolx with
        | none => rw [h4] at h; simp at h
        | some ms =>
          rw [h4] at h
          simp only [Option.bind_eq_bind, Option.some_bind, Option.some.injEq] at h
          exact ⟨vcolx, mcolx, vs, ms, rfl, rfl, h3, h4, h.symm⟩

/-! ### C5: currency normalisation -/

/-- C5 (counterexample): `"$1,234.50"` in the `Value ($)` column does not
normalise — line 132 strips only commas, so `float('$1234.50')` raises and
the dataset fails to process; the same string in the `Cost` column (line
133 strips `'$'` too) normalises to exactly `1234.50`. -/
theorem C5_counterexample :
    cleanValueCell "$1,234.50" = none ∧
    cleanCostCell "$1,234.50" = some ⟨123450, 99⟩ ∧
    cleanValueCell "1,234.50" = some ⟨123450, 99⟩ ∧
    (processInsiderData false oracleErr dfDollarValue mc0).res = none ∧
    ((processInsiderData false oracleErr dfDollarCost mc0).res.bind
      (fun d => d.getCol "Cost")) = some [PyVal.f (PFloat.finite ⟨123450, 99⟩)] ∧
    Frac.toRat ⟨123450, 99⟩ = 1234.5 := by
  refine ⟨by decide, by decide, by decide, by decide, by decide, ?_⟩
  norm_num [Frac.toRat, Frac.den]

/-- C5 (amended): whenever processing succeeds, every cell of the
`Value ($)` column was parsed after stripping only thousands separators
(`cleanValueCell`), and every cell of the `Cost` column after stripping the
currency symbol and thousands separators (`cleanCostCell`); the parsed
values are what the processed frame stores.  In particular `"$1,234.50"`
fails in the value column but yields exactly `1234.50` in the cost
column. -/
theorem C5_normalisation (hasKey : Bool) (oracle : ℕ → Except Unit Overview)
    (df : DataFrame) (mc : MCState) (vcol ccol : List PyVal)
    (hres : ((processInsiderData hasKey oracle df mc).res).isSome = true)
    (hv : df.getCol "Value ($)" = some vcol)
    (hc : df.getCol "Cost" = some ccol) :
    (∃ vstrs vq, colMapM asString vcol = some vstrs ∧
        colMapM cleanValueCell vstrs = some vq ∧
        (processInsiderData hasKey oracle df mc).df.getCol "Value ($)"
          = some (vq.map (fun q => PyVal.f (PFloat.finite q))) ∧
        ∀ i s, vcol.get? i = some (PyVal.s s) →
          ∃ q, cleanValueCell s = some q ∧ vq.get? i = some q) ∧
    (∃ cstrs cq, colMapM asString ccol = some cstrs ∧
        colMapM cleanCostCell cstrs = some cq ∧
        (processInsiderData hasKey oracle df mc).df.getCol "Cost"
          = some (cq.map (fun q => PyVal.f (PFloat.finite q))) ∧
        ∀ i s, ccol.get? i = some (PyVal.s s) →
          ∃ q, cleanCostCell s = some q ∧ cq.get? i = some q) ∧
    cleanValueCell "$1,234.50" = none ∧
    cleanCostCell "$1,234.50" = some ⟨123450, 99⟩ := by
  obtain ⟨df1, df2, df3, h0, h1, h2, h3, hsorted, hbr⟩ :=
    processInsiderData_some hasKey oracle df mc hres
  obtain ⟨dcol, dcol', hd1, hd2, hdf1⟩ := stepDate_eq_some h1
  obtain ⟨vcol1, vstrs, vq, hv1, hv2, hv3, hdf2⟩ := stepValue_eq_some h2
  obtain ⟨ccol2, cstrs, cq, hc1, hc2, hc3, hdf3⟩ := stepCost_eq_some h3
  have hvc : vcol1 = vcol := by
    rw [hdf1, DataFrame.getCol_setCol_ne df (by decide) dcol', hv] at hv1
    exact (Option.some.inj hv1).symm
  have hcc : ccol2 = ccol := by
    rw [hdf2, DataFrame.getCol_setCol_ne df1 (by decide), hdf1,
        DataFrame.getCol_setCol_ne df (by decide), hc] at hc1
    exact (Option.some.inj hc1).symm
  subst hvc
  subst hcc
  -- the value and cost columns of the mutated frame
  have hval3 : df3.getCol "Value ($)"
      = some (vq.map (fun q => PyVal.f (PFloat.finite q))) := by
    rw [hdf3, DataFrame.getCol_setCol_ne df2 (by decide), hdf2,
        DataFrame.getCol_setCol_same]
  have hcost3 : df3.getCol "Cost"
      = some (cq.map (fun q => PyVal.f (PFloat.finite q))) := by
    rw [hdf3, DataFrame.getCol_setCol_same]
  have hvalF : (processInsiderData hasKey oracle df mc).df.getCol "Value ($)"
      = some (vq.map (fun q => PyVal.f (PFloat.finite q))) := by
    rcases hbr with ⟨hk, df4, mc', h4, df5, h5, hdf⟩ | ⟨hk, hdf⟩
    · obtain ⟨tcol, ts, _, _, hout1, _⟩ := stepMarketCap_eq_some h4
      obtain ⟨vcolx, mcolx, vs, ms, _, _, _, _, hdf5⟩ := stepPct_eq_some h5
      rw [hdf, hdf5, DataFrame.getCol_setCol_ne df4 (by decide), hout1,
          DataFrame.getCol_setCol_ne df3 (by decide), hval3]
    · rw [hdf, DataFrame.getCol_setCol_ne _ (by decide),
          DataFrame.getCol_setCol_ne df3 (by decide), hval3]
  have hcostF : (processInsiderData hasKey oracle df mc).df.getCol "Cost"
      = some (cq.map (fun q => PyVal.f (PFloat.finite q))) := by
    rcases hbr with ⟨hk, df4, mc', h4, df5, h5, hdf⟩ | ⟨hk, hdf⟩
    · obtain ⟨tcol, ts, _, _, hout1, _⟩ := stepMarketCap_eq_some h4
      obtain ⟨vcolx, mcolx, vs, ms, _, _, _, _, hdf5⟩ := stepPct_eq_some h5
      rw [hdf, hdf5, DataFrame.getCol_setCol_ne df4 (by decide), hout1,
          DataFrame.getCol_setCol_ne df3 (by decide), hcost3]
    · rw [hdf, DataFrame.getCol_setCol_ne _ (by decide),
          DataFrame.getCol_setCol_ne df3 (by decide), hcost3]
  refine ⟨⟨vstrs, vq, hv2, hv3, hvalF, ?_⟩, ⟨cstrs, cq, hc2, hc3, hcostF, ?_⟩,
    by decide, by decide⟩
  · intro i s hi
    obtain ⟨y, hy, hyi⟩ := colMapM_get? asString hv2 hi
    have hys : y = s := by
      have := hy
      simp only [asString, Option.some.injEq] at this
      exact this.symm
    subst hys
    obtain ⟨q, hq, hqi⟩ := colMapM_get? cleanValueCell hv3 hyi
    exact ⟨q, hq, hqi⟩
  · intro i s hi
    obtain ⟨y, hy, hyi⟩ := colMapM_get? asString hc2 hi
    have hys : y = s := by
      have := hy
      simp only [asString, Option.some.injEq] at this
      exact this.symm
    subst hys
    obtain ⟨q, hq, hqi⟩ := colMapM_get? cleanCostCell hc3 hyi
    exact ⟨q, hq, hqi⟩

/-- Witness for `C5_normalisation` at `dfDollarCost`: processing succeeds
and stores exactly `1234.50` (as the fraction `123450/100`) for both
columns. -/
theorem C5_normalisation_witness :
    (∃ vstrs vq, colMapM asString [PyVal.s "1,234.50"] = some vstrs ∧
        colMapM cleanValueCell vstrs = some vq ∧
        (processInsiderData false oracleErr dfDollarCost mc0).df.getCol "Value ($)"
          = some (vq.map (fun q => PyVal.f (PFloat.finite q))) ∧
        ∀ i s, [PyVal.s "1,234.50"].get? i = some (PyVal.s s) →
          ∃ q, cleanValueCell s = some q ∧ vq.get? i = some q) ∧
    (∃ cstrs cq, colMapM asString [PyVal.s "$1,234.50"] = some cstrs ∧
        colMapM cleanCostCell cstrs = some cq ∧
        (processInsiderData false oracleErr dfDollarCost mc0).df.getCol "Cost"
          = some (cq.map (fun q => PyVal.f (PFloat.finite q))) ∧
        ∀ i s, [PyVal.s "$1,234.50"].get? i = some (PyVal.s s) →
          ∃ q, cleanCostCell s = some q ∧ cq.get? i = some q) ∧
    cleanValueCell "$1,234.50" = none ∧
    cleanCostCell "$1,234.50" = some ⟨123450, 99⟩ := by
  exact C5_normalisation false oracleErr dfDollarCost mc0
    [PyVal.s "1,234.50"] [PyVal.s "$1,234.50"] (by decide) (by decide) (by decide)

/-! ### C10: in-place mutation of the caller's DataFrame -/

/-- C10: `process_insider_data` mutates the DataFrame passed to it in place:
on success the caller's object ends up with the converted `Date` column and
the added `Market Cap` / `Trade % of Market Cap` columns (the returned
dataset being the sorted row-selection of that mutated object); and on the
concrete partial failure `dfPartial` (date parses, value does not) the
caller's object is left with `Date` converted but `Value ($)` untouched
while the call returns `None`. -/
theorem C10_in_place_mutation (hasKey : Bool) (oracle : ℕ → Except Unit Overview)
    (df : DataFrame) (mc : MCState)
    (hres : ((processInsiderData hasKey oracle df mc).res).isSome = true) :
    (∃ dcol dcol', df.getCol "Date" = some dcol ∧
      colMapM toDatetimeCell dcol = some dcol' ∧
      (processInsiderData hasKey oracle df mc).df.getCol "Date" = some dcol') ∧
    ((processInsiderData hasKey oracle df mc).df.getCol "Market Cap").isSome = true ∧
    ((processInsiderData hasKey oracle df mc).df.getCol
      "Trade % of Market Cap").isSome = true ∧
    (processInsiderData hasKey oracle df mc).res
      = sortValuesDesc ((processInsiderData hasKey oracle df mc).df) ∧
    (processInsiderData false oracleErr dfPartial mc0).res = none ∧
    (processInsiderData false oracleErr dfPartial mc0).df.getCol "Date"
      = some [PyVal.d (Frac.ofInt 1)] ∧
    (processInsiderData false oracleErr dfPartial mc0).df.getCol "Value ($)"
      = some [PyVal.s "x"] ∧
    (processInsiderData false oracleErr dfPartial mc0).df ≠ dfPartial := by
  obtain ⟨df1, df2, df3, h0, h1, h2, h3, hsorted, hbr⟩ :=
    processInsiderData_some hasKey oracle df mc hres
  obtain ⟨dcol, dcol', hd1, hd2, hdf1⟩ := stepDate_eq_some h1
  obtain ⟨vcol1, vstrs, vq, hv1, hv2, hv3, hdf2⟩ := stepValue_eq_some h2
  obtain ⟨ccol2, cstrs, cq, hc1, hc2, hc3, hdf3⟩ := stepCost_eq_some h3
  have hdate3 : df3.getCol "Date" = some dcol' := by
    rw [hdf3, DataFrame.getCol_setCol_ne df2 (by decide), hdf2,
        DataFrame.getCol_setCol_ne df1 (by decide), hdf1,
        DataFrame.getCol_setCol_same]
  refine ⟨⟨dcol, dcol', hd1, hd2, ?_⟩, ?_, ?_, hsorted,
    by decide, by decide, by decide, by decide⟩
  · rcases hbr with ⟨hk, df4, mc', h4, df5, h5, hdf⟩ | ⟨hk, hdf⟩
    · obtain ⟨tcol, ts, _, _, hout1, _⟩ := stepMarketCap_eq_some h4
      obtain ⟨vcolx, mcolx, vs, ms, _, _, _, _, hdf5⟩ := stepPct_eq_some h5
      rw [hdf, hdf5, DataFrame.getCol_setCol_ne df4 (by decide), hout1,
          DataFrame.getCol_setCol_ne df3 (by decide), hdate3]
    · rw [hdf, DataFrame.getCol_setCol_ne _ (by decide),
          DataFrame.getCol_setCol_ne df3 (by decide), hdate3]
  · rcases hbr with ⟨hk, df4, mc', h4, df5, h5, hdf⟩ | ⟨hk, hdf⟩
    · obtain ⟨tcol, ts, _, _, hout1, _⟩ := stepMarketCap_eq_some h4
      obtain ⟨vcolx, mcolx, vs, ms, _, _, _, _, hdf5⟩ := stepPct_eq_some h5
      rw [hdf, hdf5, DataFrame.getCol_setCol_ne df4 (by decide), hout1,
          DataFrame.getCol_setCol_same]
      simp
    · rw [hdf, DataFrame.getCol_setCol_ne _ (by decide),
          DataFrame.getCol_setCol_same]
      simp
  · rcases hbr with ⟨hk, df4, mc', h4, df5, h5, hdf⟩ | ⟨hk, hdf⟩
    · obtain ⟨vcolx, mcolx, vs, ms, _, _, _, _, hdf5⟩ := stepPct_eq_some h5
      rw [hdf, hdf5, DataFrame.getCol_setCol_same]
      simp
    · rw [hdf, DataFrame.getCol_setCol_same]
      simp

/-- Witness for `C10_in_place_mutation` at the succeeding frame
`dfDollarCost`. -/
theorem C10_in_place_mutation_witness :
    (∃ dcol dcol', dfDollarCost.getCol "Date" = some dcol ∧
      colMapM toDatetimeCell dcol = some dcol' ∧
      (processInsiderData false oracleErr dfDollarCost mc0).df.getCol "Date"
        = some dcol') ∧
    ((processInsiderData false oracleErr dfDollarCost mc0).df.getCol
      "Market Cap").isSome = true ∧
    ((processInsiderData false oracleErr dfDollarCost mc0).df.getCol
      "Trade % of Market Cap").isSome = true ∧
    (processInsiderData false oracleErr dfDollarCost mc0).res
      = sortValuesDesc ((processInsiderData false oracleErr dfDollarCost mc0).df) ∧
    (processInsiderData false oracleErr dfPartial mc0).res = none ∧
    (processInsiderData false oracleErr dfPartial mc0).df.getCol "Date"
      = some [PyVal.d (Frac.ofInt 1)] ∧
    (processInsiderData false oracleErr dfPartial mc0).df.getCol "Value ($)"
      = some [PyVal.s "x"] ∧
    (processInsiderData false oracleErr dfPartial mc0).df ≠ dfPartial :=
  C10_in_place_mutation false oracleErr dfDollarCost mc0 (by decide)

theorem getD_append_length {α : Type} (l : List α) (x d : α) :
    (l ++ [x]).getD l.length d = x := by
  rw [List.getD_eq_getElem?_getD, List.getElem?_concat_length]
  rfl

theorem getD_append_lt {α : Type} (l l2 : List α) (a : ℕ) (d : α)
    (h : a < l.length) : (l ++ l2).getD a d = l.getD a d := by
  rw [List.getD_eq_getElem?_getD, List.getD_eq_getElem?_getD,
      List.getElem?_append, if_pos h]

/-! ### C1: failure handling in `fetch_insider_data` -/

/-- C1 (counterexample): with a stale cache, a fetch whose network and
extraction stages succeed but whose processing fails returns `None` without
raising — but it *clears* the previously cached dataset
(`self._cached_data = None`) and updates `self._last_fetch_time`, so the
previous cache state is not left untouched. -/
theorem C1_counterexample :
    stCached.cachedData = some 0 ∧
    stCached.lastFetchTime = some (Frac.ofInt 0) ∧
    cacheFresh (Frac.ofInt 100) stCached = false ∧
    (fetchInsiderData (Frac.ofInt 100) true (.ok htmlBad) oracleErr stCached).1
      = none ∧
    (fetchInsiderData (Frac.ofInt 100) true (.ok htmlBad) oracleErr
        stCached).2.cachedData = none ∧
    (fetchInsiderData (Frac.ofInt 100) true (.ok htmlBad) oracleErr
        stCached).2.lastFetchTime = some (Frac.ofInt 100) := by
  decide

/-- C1 (amended): on the network-fetch path, a failure of the network,
table-discovery or emptiness stage makes `fetch_insider_data` return `None`
with the cached dataset, its timestamp, the heap and the memo state all
unchanged; a failure inside `process_insider_data`, however, still returns
`None` (nothing is raised) but replaces the cached dataset by `None` and
updates the fetch timestamp to the current time — a partial cache update. -/
theorem C1_fetch_failure (now : Frac) (useCache : Bool) (net : Except Unit Html)
    (oracle : ℕ → Except Unit Overview) (st : TrackerState)
    (hpath : useCache = false ∨ cacheFresh now st = false) :
    (extractStage net = none →
      (fetchInsiderData now useCache net oracle st).1 = none ∧
      (fetchInsiderData now useCache net oracle st).2.cachedData = st.cachedData ∧
      (fetchInsiderData now useCache net oracle st).2.lastFetchTime
        = st.lastFetchTime ∧
      (fetchInsiderData now useCache net oracle st).2.heap = st.heap ∧
      (fetchInsiderData now useCache net oracle st).2.mc = st.mc) ∧
    (∀ df, extractStage net = some df →
      (processInsiderData st.hasKey oracle df st.mc).res = none →
      (fetchInsiderData now useCache net oracle st).1 = none ∧
      (fetchInsiderData now useCache net oracle st).2.cachedData = none ∧
      (fetchInsiderData now useCache net oracle st).2.lastFetchTime = some now) := by
  have hcond : (useCache && cacheFresh now st) = false := by
    rcases hpath with h | h <;> simp [h]
  constructor
  · intro hext
    simp [fetchInsiderData, hcond, fetchFresh, hext]
  · intro df hext hproc
    simp [fetchInsiderData, hcond, fetchFresh, hext, hproc]

/-- Witness for `C1_fetch_failure`: the stale state `stCached` with the
page `htmlBad`, whose processing fails. -/
theorem C1_fetch_failure_witness :
    (fetchInsiderData (Frac.ofInt 100) true (.ok htmlBad) oracleErr stCached).1
      = none ∧
    (fetchInsiderData (Frac.ofInt 100) true (.ok htmlBad) oracleErr
        stCached).2.cachedData = none ∧
    (fetchInsiderData (Frac.ofInt 100) true (.ok htmlBad) oracleErr
        stCached).2.lastFetchTime = some (Frac.ofInt 100) := by
  exact (C1_fetch_failure (Frac.ofInt 100) true (.ok htmlBad) oracleErr stCached
    (Or.inr (by decide))).2
    (DataFrame.ofRows ["Ticker", "Date", "Transaction", "Cost", "Value ($)"]
      [["A", "1", "Buy", "10", "x"]])
    (by decide) (by decide)

/-! ### C4: the TTL and the query operations -/

/-- C4 (counterexample): the cached dataset of `stCached` is far beyond the
5-minute TTL at minute 10000 (`cacheFresh` is false), yet
`get_recent_trades` returns its rows (the network, modelled as failing,
is never consulted and the fetch timestamp is untouched) — an expired
cached dataset is served to the caller. -/
theorem C4_counterexample :
    cacheFresh (Frac.ofInt 10000) stCached = false ∧
    (getRecentTrades (Frac.ofInt 7) (Frac.ofInt 0) (Frac.ofInt 10000)
        (.error ()) oracleErr stCached).1 = .ok (some 1) ∧
    heapGet (getRecentTrades (Frac.ofInt 7) (Frac.ofInt 0) (Frac.ofInt 10000)
        (.error ()) oracleErr stCached).2 1 = dfOld ∧
    (getRecentTrades (Frac.ofInt 7) (Frac.ofInt 0) (Frac.ofInt 10000)
        (.error ()) oracleErr stCached).2.lastFetchTime = some (Frac.ofInt 0) := by
  decide

/-- C4 (amended): `fetch_insider_data` itself honours the TTL — with a
non-fresh cache it always takes the network path, and the cached copy is
served only while `now − last_fetch_time < 5` minutes.  The query
operations, however, only check that a cached dataset *exists* (`is None`):
their shared prologue returns the cached address without looking at the
timestamp, and `get_recent_trades` serves rows of that possibly expired
dataset without triggering any fetch. -/
theorem C4_ttl (now : Frac) (useCache : Bool) (net : Except Unit Html)
    (oracle : ℕ → Except Unit Overview) (st : TrackerState) :
    (cacheFresh now st = false →
      fetchInsiderData now useCache net oracle st = fetchFresh now net oracle st) ∧
    (∀ t, cacheFresh now st = true → st.lastFetchTime = some t →
      Frac.blt (Frac.sub now t) cacheDurationMinutes = true) ∧
    (∀ a, st.cachedData = some a → ensureData now net oracle st = (some a, st)) ∧
    (∀ a days minValue, st.cachedData = some a →
      (getRecentTrades days minValue now net oracle st).2.lastFetchTime
        = st.lastFetchTime) := by
  refine ⟨?_, ?_, ?_, ?_⟩
  · intro h
    simp [fetchInsiderData, h]
  · intro t hfresh ht
    unfold cacheFresh at hfresh
    cases hca : st.cachedData with
    | none => rw [hca] at hfresh; simp at hfresh
    | some a => rw [hca, ht] at hfresh; exact hfresh
  · intro a ha
    simp [ensureData, ha]
  · intro a days minValue ha
    have hens : ensureData now net oracle st = (some a, st) := by
      simp [ensureData, ha]
    unfold getRecentTrades
    rw [hens]
    by_cases he : (heapGet st a).isEmptyDf = true
    · simp [he]
    · rw [Bool.not_eq_true] at he
      simp only [he, Bool.false_eq_true, if_false]
      cases h1 : (heapGet st a).getCol "Date" with
      | none => simp
      | some dcol =>
        cases h2 : (heapGet st a).getCol "Value ($)" with
        | none => simp
        | some vcol =>
          simp only
          cases h3 : colMapM
              (fun c => match c with | PyVal.d q => some q | _ => none) dcol with
          | none => simp
          | some ds =>
            cases h4 : colMapM asFloat vcol with
            | none => simp
            | some vs => simp [allocDf]

/-- Witness for `C4_ttl` at the expired state `stCached` (minute 10000). -/
theorem C4_ttl_witness :
    (cacheFresh (Frac.ofInt 10000) stCached = false →
      fetchInsiderData (Frac.ofInt 10000) true (.error ()) oracleErr stCached
        = fetchFresh (Frac.ofInt 10000) (.error ()) oracleErr stCached) ∧
    ensureData (Frac.ofInt 10000) (.error ()) oracleErr stCached
      = (some 0, stCached) ∧
    (getRecentTrades (Frac.ofInt 7) (Frac.ofInt 0) (Frac.ofInt 10000)
        (.error ()) oracleErr stCached).2.lastFetchTime = some (Frac.ofInt 0) := by
  have h := C4_ttl (Frac.ofInt 10000) true (.error ()) oracleErr stCached
  refine ⟨fun hf => h.1 hf, h.2.2.1 0 (by decide), ?_⟩
  rw [h.2.2.2 0 (Frac.ofInt 7) (Frac.ofInt 0) (by decide)]
  decide

/-! ### C7: defensive copies vs the live cache -/

/-- C7 (counterexample): `filter_trades` with no recognised criterion
returns the cached object itself (`df = self._cached_data; ...; return df`)
— the returned address is the cache's address, the state is unchanged, and
mutating the object behind that address changes what the cache now holds. -/
theorem C7_counterexample :
    (filterTrades noFilters (Frac.ofInt 1) (.error ()) oracleErr stCached).1
      = .ok (some 0) ∧
    stCached.cachedData = some 0 ∧
    (filterTrades noFilters (Frac.ofInt 1) (.error ()) oracleErr stCached).2
      = stCached ∧
    heapGet stCached 0 = dfOld ∧
    heapGet (heapSet stCached 0 ⟨[]⟩) 0 = (⟨[]⟩ : DataFrame) ∧
    (heapSet stCached 0 ⟨[]⟩).cachedData = some 0 := by
  decide

/-- C7 (amended): `fetch_insider_data` returns defensive copies — a cache
hit allocates a fresh object with the cached contents, and two fetches
within the TTL window return two distinct fresh objects, both value-equal
to the cached frame; `df[mask]` filtering also allocates a fresh object, so
`filter_trades` with at least one recognised criterion returns a fresh
address.  Only `filter_trades` with no recognised criterion (the
counterexample) hands back the live cached object. -/
theorem C7_defensive_copies (now now2 : Frac) (net : Except Unit Html)
    (oracle : ℕ → Except Unit Overview) (st : TrackerState) :
    (∀ a, cacheFresh now st = true → st.cachedData = some a →
      a < st.heap.length →
      (fetchInsiderData now true net oracle st).1 = some st.heap.length ∧
      st.heap.length ≠ a ∧
      heapGet (fetchInsiderData now true net oracle st).2 st.heap.length
        = heapGet st a ∧
      (fetchInsiderData now true net oracle st).2.cachedData = st.cachedData ∧
      (fetchInsiderData now true net oracle st).2.lastFetchTime
        = st.lastFetchTime) ∧
    (∀ a, cacheFresh now st = true → st.cachedData = some a →
      a < st.heap.length →
      cacheFresh now2 (fetchInsiderData now true net oracle st).2 = true →
      (fetchInsiderData now2 true net oracle
          (fetchInsiderData now true net oracle st).2).1
        = some (st.heap.length + 1) ∧
      st.heap.length + 1 ≠ st.heap.length ∧
      heapGet (fetchInsiderData now2 true net oracle
          (fetchInsiderData now true net oracle st).2).2 (st.heap.length + 1)
        = heapGet st a ∧
      heapGet (fetchInsiderData now2 true net oracle
          (fetchInsiderData now true net oracle st).2).2 st.heap.length
        = heapGet st a) ∧
    (∀ a v mask, st.cachedData = some a → a < st.heap.length →
      (heapGet st a).isEmptyDf = false →
      maskMinValue v (heapGet st a) = some mask →
      (filterTrades ⟨some v, none, none, none, none⟩ now net oracle st).1
        = .ok (some st.heap.length) ∧
      st.heap.length ≠ a) := by
  have key : ∀ (now' : Frac) (st' : TrackerState) (a : ℕ),
      cacheFresh now' st' = true → st'.cachedData = some a →
      fetchInsiderData now' true net oracle st'
        = (some st'.heap.length,
           { st' with
               heap := st'.heap ++ [heapGet st' a],
               log := st'.log ++ ["Using cached insider trading data"] }) := by
    intro now' st' a hfresh hca
    simp [fetchInsiderData, hfresh, hca, allocDf]
  refine ⟨?_, ?_, ?_⟩
  · intro a hfresh hca hlt
    rw [key now st a hfresh hca]
    refine ⟨rfl, by omega, ?_, rfl, rfl⟩
    simp only [heapGet]
    exact getD_append_length st.heap (heapGet st a) _
  · intro a hfresh hca hlt hfresh2
    rw [key now st a hfresh hca] at hfresh2 ⊢
    have hca2 : ({ st with
        heap := st.heap ++ [heapGet st a],
        log := st.log ++ ["Using cached insider trading data"] }
          : TrackerState).cachedData = some a := hca
    rw [key now2 _ a hfresh2 hca2]
    refine ⟨by simp, by omega, ?_, ?_⟩
    · simp only [heapGet, List.length_append, List.length_cons, List.length_nil]
      rw [getD_append_lt st.heap _ a _ hlt]
      have h2 := getD_append_length
        (st.heap ++ [st.heap.getD a (⟨[]⟩ : DataFrame)])
        (st.heap.getD a (⟨[]⟩ : DataFrame)) (⟨[]⟩ : DataFrame)
      simpa using h2
    · simp only [heapGet, List.length_append, List.length_cons, List.length_nil]
      rw [getD_append_lt _ _ (st.heap.length) _ (by simp)]
      exact getD_append_length st.heap _ _
  · intro a v mask hca hlt hemp hmask
    have hens : ensureData now net oracle st = (some a, st) := by
      simp [ensureData, hca]
    unfold filterTrades
    rw [hens]
    simp only [hemp, Bool.false_eq_true, if_false]
    refine ⟨?_, by omega⟩
    simp [applyMaskFilter, hmask, allocDf]

/-- Witness for `C7_defensive_copies` at a fresh `stCached` (minute 1). -/
theorem C7_defensive_copies_witness :
    (fetchInsiderData (Frac.ofInt 1) true (.error ()) oracleErr stCached).1
      = some 1 ∧
    (1 : ℕ) ≠ 0 ∧
    heapGet (fetchInsiderData (Frac.ofInt 1) true (.error ()) oracleErr
        stCached).2 1 = heapGet stCached 0 ∧
    (fetchInsiderData (Frac.ofInt 1) true (.error ()) oracleErr
        stCached).2.cachedData = stCached.cachedData ∧
    (fetchInsiderData (Frac.ofInt 1) true (.error ()) oracleErr
        stCached).2.lastFetchTime = stCached.lastFetchTime := by
  have h := (C7_defensive_copies (Frac.ofInt 1) (Frac.ofInt 1) (.error ())
    oracleErr stCached).1 0 (by decide) (by decide) (by decide)
  exact h

theorem colMapM_asFloat_shape :
    ∀ {col : List PyVal} {vs : List PFloat},
      colMapM asFloat col = some vs → col = vs.map PyVal.f := by
  intro col
  induction col with
  | nil =>
    intro vs h
    simp only [colMapM, Option.some.injEq] at h
    simp [← h]
  | cons c cs ih =>
    intro vs h
    simp only [colMapM, Option.bind_eq_bind, Option.bind_eq_some,
      Option.some.injEq] at h
    obtain ⟨v, hv, vs', hvs', rfl⟩ := h
    cases c with
    | f x =>
      simp only [asFloat, Option.some.injEq] at hv
      subst hv
      simp [ih hvs']
    | s x => simp [asFloat] at hv
    | d x => simp [asFloat] at hv

/-! ### C2: the trade-percentage formula -/

/-- C2 (counterexample): with a configured key and a provider reporting a
market capitalisation of `0`, a record with value `100` gets
`Trade % of Market Cap` equal to `+inf` — `(value / market_cap) * 100` at
line 139 has no zero guard — not the claimed `0.0`. -/
theorem C2_counterexample :
    ((processInsiderData true oracleZero dfDivZero mc0).res.bind
      (fun d => d.getCol "Market Cap")) = some [PyVal.f (PFloat.fin 0)] ∧
    ((processInsiderData true oracleZero dfDivZero mc0).res.bind
      (fun d => d.getCol "Trade % of Market Cap")) = some [PyVal.f PFloat.pinf] ∧
    PFloat.pinf ≠ PFloat.fin 0 := by
  decide

/-- C2 (amended): with an API key, the processed frame's
`Trade % of Market Cap` column is exactly `(value / market_cap) * 100`
computed elementwise with IEEE semantics — so a record with positive value
and zero market cap gets `+inf` (and `0/0` would give NaN), never the
claimed `0.0` — and the returned dataset is the sorted row-selection of
that frame; without a key the percentage column is identically `0`. -/
theorem C2_percentage (oracle : ℕ → Except Unit Overview) (df : DataFrame)
    (mc : MCState) (hasKey : Bool)
    (hres : ((processInsiderData hasKey oracle df mc).res).isSome = true) :
    (hasKey = true →
      ∃ vs ms,
        (processInsiderData hasKey oracle df mc).df.getCol "Value ($)"
          = some (vs.map PyVal.f) ∧
        (processInsiderData hasKey oracle df mc).df.getCol "Market Cap"
          = some (ms.map PyVal.f) ∧
        (processInsiderData hasKey oracle df mc).df.getCol "Trade % of Market Cap"
          = some (List.zipWith
              (fun v m => PyVal.f (PFloat.mul (PFloat.div v m) (PFloat.fin 100)))
              vs ms) ∧
        (processInsiderData hasKey oracle df mc).res
          = some ((processInsiderData hasKey oracle df mc).df.takeRows
              (pandasDescArgsort vs))) ∧
    (hasKey = false →
      ∃ n, (processInsiderData hasKey oracle df mc).df.getCol
          "Trade % of Market Cap"
        = some (List.replicate n (PyVal.f (PFloat.fin 0)))) ∧
    (∀ q m, Frac.blt (Frac.ofInt 0) q = true → Frac.isZero m = true →
      PFloat.mul (PFloat.div (PFloat.finite q) (PFloat.finite m)) (PFloat.fin 100)
        = PFloat.pinf) := by
  obtain ⟨df1, df2, df3, h0, h1, h2, h3, hsorted, hbr⟩ :=
    processInsiderData_some hasKey oracle df mc hres
  refine ⟨?_, ?_, ?_⟩
  · intro hk
    rcases hbr with ⟨_, df4, mc', h4, df5, h5, hdf⟩ | ⟨hk', _⟩
    · obtain ⟨vcolx, mcolx, vs, ms, hvx, hmx, hvs, hms, hdf5⟩ := stepPct_eq_some h5
      have hvshape : vcolx = vs.map PyVal.f := colMapM_asFloat_shape hvs
      have hmshape : mcolx = ms.map PyVal.f := colMapM_asFloat_shape hms
      refine ⟨vs, ms, ?_, ?_, ?_, ?_⟩
      · rw [hdf, hdf5, DataFrame.getCol_setCol_ne df4 (by decide), ← hvshape, hvx]
      · rw [hdf, hdf5, DataFrame.getCol_setCol_ne df4 (by decide), ← hmshape, hmx]
      · rw [hdf, hdf5, DataFrame.getCol_setCol_same]
      · rw [hsorted, hdf]
        have hval5 : df5.getCol "Value ($)" = some (vs.map PyVal.f) := by
          rw [hdf5, DataFrame.getCol_setCol_ne df4 (by decide), ← hvshape, hvx]
        unfold sortValuesDesc
        rw [hval5]
        simp only [Option.bind_eq_bind, Option.some_bind]
        rw [colMapM_map_some asFloat PyVal.f (fun b => rfl) vs]
        simp
    · rw [hk] at hk'
      exact absurd hk' (by simp)
  · intro hk
    rcases hbr with ⟨hk', _⟩ | ⟨_, hdf⟩
    · rw [hk] at hk'
      exact absurd hk' (by simp)
    · exact ⟨df3.nrows, by rw [hdf, DataFrame.getCol_setCol_same]⟩
  · intro q m hq hm
    simp only [PFloat.div, hm, if_true, hq, PFloat.mul, PFloat.fin, Frac.mk']
    norm_num
    decide

/-- Witness for `C2_percentage` at `dfDivZero` with the zero-capitalisation
provider. -/
theorem C2_percentage_witness :
    (∃ vs ms,
        (processInsiderData true oracleZero dfDivZero mc0).df.getCol "Value ($)"
          = some (vs.map PyVal.f) ∧
        (processInsiderData true oracleZero dfDivZero mc0).df.getCol "Market Cap"
          = some (ms.map PyVal.f) ∧
        (processInsiderData true oracleZero dfDivZero mc0).df.getCol
            "Trade % of Market Cap"
          = some (List.zipWith
              (fun v m => PyVal.f (PFloat.mul (PFloat.div v m) (PFloat.fin 100)))
              vs ms) ∧
        (processInsiderData true oracleZero dfDivZero mc0).res
          = some ((processInsiderData true oracleZero dfDivZero mc0).df.takeRows
              (pandasDescArgsort vs))) ∧
    PFloat.mul (PFloat.div (PFloat.finite (Frac.ofInt 100))
        (PFloat.finite (Frac.ofInt 0))) (PFloat.fin 100) = PFloat.pinf := by
  have h := C2_percentage oracleZero dfDivZero mc0 true (by decide)
  exact ⟨h.1 rfl, h.2.2 (Frac.ofInt 100) (Frac.ofInt 0) (by decide) (by decide)⟩

/-! ### C6: ordering of the processed dataset -/

/-- C6 (counterexample): seventeen rows with equal trade value `5` come out
of processing in the order `[0, 9, 15, 14, …]` rather than the original
one: beyond numpy's 16-element insertion-sort cutoff, the default
quicksort's partition pass reorders equal keys, so ties do *not* keep
their original relative row order. -/
theorem C6_counterexample :
    ((processInsiderData false oracleErr df17 mc0).res.bind
      (fun d => d.getCol "Value ($)"))
      = some (List.replicate 17 (PyVal.f (PFloat.fin 5))) ∧
    ((processInsiderData false oracleErr df17 mc0).res.bind
      (fun d => d.getCol "Ticker"))
      = some (([0, 9, 15, 14, 13, 12, 11, 10, 8, 1, 7, 6, 5, 4, 3, 2, 16] : List ℕ).map
          (fun i => PyVal.s (tick i))) ∧
    ([0, 9, 15, 14, 13, 12, 11, 10, 8, 1, 7, 6, 5, 4, 3, 2, 16] : List ℕ)
      ≠ List.range 17 := by
  refine ⟨?_, ?_, by decide⟩ <;> decide

theorem map_isNan_finite (qs : List Frac) :
    (qs.map PFloat.finite).map PFloat.isNan = List.replicate qs.length false := by
  induction qs with
  | nil => rfl
  | cons q qs ih => simp [PFloat.isNan, ih, List.replicate]

theorem boolMaskKeep_replicate_false {α : Type} :
    ∀ (xs : List α), boolMaskKeep xs (List.replicate xs.length false) = xs := by
  intro xs
  induction xs with
  | nil => rfl
  | cons x xs ih =>
    simp only [List.length_cons, List.replicate, boolMaskKeep, List.zip_cons_cons,
      List.filter] at ih ⊢
    simp only [Bool.not_false]
    rw [List.map_cons]
    exact congrArg (x :: ·) ih

theorem boolMaskSel_replicate_false {α : Type} :
    ∀ (xs : List α), boolMaskSel xs (List.replicate xs.length false) = [] := by
  intro xs
  induction xs with
  | nil => rfl
  | cons x xs ih =>
    simp only [List.length_cons, List.replicate, boolMaskSel, List.zip_cons_cons,
      List.filter] at ih ⊢
    exact ih

theorem aqLoop_small (v : List PFloat) (f : ℕ) (t : List ℕ) (pl pr d : ℤ)
    (h : ¬ pr - pl > 15) :
    aqLoop v (f + 1) t pl pr d [] = insertionRange v t pl pr := by
  simp [aqLoop, h]

theorem aquicksortList_small (v : List PFloat) (h : v.length ≤ 16) :
    aquicksortList v = npInsertion v (List.range v.length) := by
  unfold aquicksortList
  simp only
  obtain ⟨f, hf⟩ : ∃ f, (v.length + 2) * (v.length + 2) = f + 1 :=
    ⟨(v.length + 2) * (v.length + 2) - 1, by
      have : 1 ≤ (v.length + 2) * (v.length + 2) := Nat.one_le_iff_ne_zero.mpr (by positivity)
      omega⟩
  rw [hf, aqLoop_small v f _ 0 _ _ (by omega)]
  unfold insertionRange
  by_cases h0 : (v.length : ℤ) - 1 < 0
  · have : v.length = 0 := by omega
    simp [this, if_pos, h0, npInsertion, npInsertionGo]
  · rw [if_neg h0]
    have e1 : ((0 : ℤ)).toNat = 0 := rfl
    have e2 : ((v.length : ℤ) - 1 + 1 - 0).toNat = v.length := by omega
    have e3 : ((v.length : ℤ) - 1 + 1).toNat = v.length := by omega
    rw [e1, e2, e3, List.take_zero, List.drop_zero, List.nil_append]
    rw [List.take_of_length_le (le_of_eq (List.length_range _)),
      List.drop_eq_nil_of_le (le_of_eq (List.length_range _)), List.append_nil]

theorem getD_map_finite (qs : List Frac) {a : ℕ} (ha : a < qs.length) :
    (qs.map PFloat.finite).getD a PFloat.nan
      = PFloat.finite (qs.getD a (Frac.ofInt 0)) := by
  rw [List.getD_eq_getElem _ _ (by simpa using ha), List.getElem_map,
      List.getD_eq_getElem _ _ ha]

theorem npSortLT_finite (x y : Frac) :
    npSortLT (PFloat.finite x) (PFloat.finite y) = Frac.blt x y := by
  simp [npSortLT, PFloat.lt, PFloat.isNan]

theorem insertRev_spec (qs : List Frac) (i : ℕ) (hi : i < qs.length) :
    ∀ (revAcc : List ℕ),
      (∀ x ∈ revAcc, x < qs.length) →
      (∀ x ∈ revAcc, x < i) →
      revAcc.Pairwise (fun a b => ascStable qs b a) →
      (insertRev (qs.map PFloat.finite) i revAcc).Pairwise
          (fun a b => ascStable qs b a) ∧
      (∀ x ∈ insertRev (qs.map PFloat.finite) i revAcc, x = i ∨ x ∈ revAcc) ∧
      (insertRev (qs.map PFloat.finite) i revAcc).Perm (i :: revAcc) := by
  intro revAcc
  induction revAcc with
  | nil =>
    intro _ _ _
    refine ⟨List.pairwise_singleton _ _, ?_, List.Perm.refl _⟩
    intro x hx
    simp only [insertRev, List.mem_singleton] at hx
    exact Or.inl hx
  | cons kk rest ih =>
    intro hbound hlt hpair
    have hkb : kk < qs.length := hbound kk (by simp)
    have hki : kk < i := hlt kk (by simp)
    rw [List.pairwise_cons] at hpair
    obtain ⟨hk_rest, hpair_rest⟩ := hpair
    unfold insertRev
    rw [getD_map_finite qs hi, getD_map_finite qs hkb, npSortLT_finite]
    by_cases hcmp : Frac.blt (qs.getD i (Frac.ofInt 0)) (qs.getD kk (Frac.ofInt 0)) = true
    · rw [if_pos hcmp]
      obtain ⟨hp', hmem', hperm'⟩ := ih
        (fun x hx => hbound x (by simp [hx]))
        (fun x hx => hlt x (by simp [hx]))
        hpair_rest
      refine ⟨?_, ?_, ?_⟩
      · rw [List.pairwise_cons]
        refine ⟨?_, hp'⟩
        intro x hx
        rcases hmem' x hx with rfl | hx'
        · exact Or.inl ((Frac.blt_iff _ _).mp hcmp)
        · exact hk_rest x hx'
      · intro x hx
        rcases List.mem_cons.mp hx with rfl | hx'
        · exact Or.inr (by simp)
        · rcases hmem' x hx' with rfl | hx''
          · exact Or.inl rfl
          · exact Or.inr (by simp [hx''])
      · exact (hperm'.cons kk).trans (List.Perm.swap i kk rest)
    · have hcmpf : Frac.blt (qs.getD i (Frac.ofInt 0)) (qs.getD kk (Frac.ofInt 0))
          = false := eq_false_of_ne_true hcmp
      rw [hcmpf]
      simp only [Bool.false_eq_true, if_false]
      have hle : (qs.getD kk (Frac.ofInt 0)).toRat ≤ (qs.getD i (Frac.ofInt 0)).toRat := by
        rw [← not_lt]
        intro hcon
        rw [← Frac.blt_iff] at hcon
        rw [hcon] at hcmpf
        simp at hcmpf
      refine ⟨?_, ?_, List.Perm.refl _⟩
      · rw [List.pairwise_cons]
        constructor
        · intro x hx
          rcases List.mem_cons.mp hx with rfl | hx'
          · rcases lt_or_eq_of_le hle with hlt' | heq
            · exact Or.inl hlt'
            · exact Or.inr ⟨heq, hki⟩
          · rcases hk_rest x hx' with hlt' | ⟨heq, hxkk⟩
            · exact Or.inl (lt_of_lt_of_le hlt' hle)
            · rcases lt_or_eq_of_le hle with hlt'' | heq''
              · exact Or.inl (heq ▸ hlt'')
              · exact Or.inr ⟨heq.trans heq'', lt_trans hxkk hki⟩
        · rw [List.pairwise_cons]
          exact ⟨hk_rest, hpair_rest⟩
      · intro x hx
        rcases List.mem_cons.mp hx with rfl | hx'
        · exact Or.inl rfl
        · exact Or.inr hx'

theorem npInsertionGo_spec (qs : List Frac) :
    ∀ (rest revAcc : List ℕ),
      (∀ x ∈ revAcc, x < qs.length) →
      (∀ x ∈ rest, x < qs.length) →
      (∀ x ∈ revAcc, ∀ y ∈ rest, x < y) →
      rest.Pairwise (· < ·) →
      revAcc.Pairwise (fun a b => ascStable qs b a) →
      (npInsertionGo (qs.map PFloat.finite) revAcc rest).Pairwise (ascStable qs) ∧
      (npInsertionGo (qs.map PFloat.finite) revAcc rest).Perm (revAcc ++ rest) := by
  intro rest
  induction rest with
  | nil =>
    intro revAcc h1 _ _ _ hp
    unfold npInsertionGo
    constructor
    · rw [List.pairwise_reverse]
      exact hp
    · simp [List.reverse_perm revAcc]
  | cons j rest ih =>
    intro revAcc h1 h2 h3 h4 hp
    unfold npInsertionGo
    have hj : j < qs.length := h2 j (by simp)
    have hltj : ∀ x ∈ revAcc, x < j := fun x hx => h3 x hx j (by simp)
    obtain ⟨hp', hmem, hperm⟩ := insertRev_spec qs j hj revAcc h1 hltj hp
    rw [List.pairwise_cons] at h4
    have h1' : ∀ x ∈ insertRev (qs.map PFloat.finite) j revAcc, x < qs.length := by
      intro x hx
      rcases hmem x hx with rfl | hx'
      · exact hj
      · exact h1 x hx'
    have h3' : ∀ x ∈ insertRev (qs.map PFloat.finite) j revAcc,
        ∀ y ∈ rest, x < y := by
      intro x hx y hy
      rcases hmem x hx with rfl | hx'
      · exact h4.1 y hy
      · exact h3 x hx' y (by simp [hy])
    obtain ⟨hres_pair, hres_perm⟩ := ih (insertRev (qs.map PFloat.finite) j revAcc)
      h1' (fun x hx => h2 x (by simp [hx])) h3' h4.2 hp'
    refine ⟨hres_pair, hres_perm.trans ?_⟩
    exact (hperm.append_right rest).trans List.perm_middle.symm

theorem npInsertion_range (qs : List Frac) :
    (npInsertion (qs.map PFloat.finite) (List.range qs.length)).Pairwise
        (ascStable qs) ∧
    (npInsertion (qs.map PFloat.finite) (List.range qs.length)).Perm
        (List.range qs.length) := by
  have h := npInsertionGo_spec qs (List.range qs.length) []
    (by intro x hx; simp at hx)
    (by intro x hx; exact List.mem_range.mp hx)
    (by intro x hx; simp at hx)
    (List.pairwise_lt_range _)
    List.Pairwise.nil
  exact ⟨h.1, by simpa using h.2⟩

theorem pandasDescArgsort_finite (qs : List Frac) :
    pandasDescArgsort (qs.map PFloat.finite)
      = ((aquicksortList (qs.reverse.map PFloat.finite)).map
          (fun j => (List.range qs.length).reverse.getD j 0)).reverse := by
  unfold pandasDescArgsort
  simp only [List.length_map]
  rw [map_isNan_finite]
  have hk1 : boolMaskKeep (qs.map PFloat.finite) (List.replicate qs.length false)
      = qs.map PFloat.finite := by
    have := boolMaskKeep_replicate_false (qs.map PFloat.finite)
    rwa [List.length_map] at this
  have hk2 : boolMaskKeep (List.range qs.length) (List.replicate qs.length false)
      = List.range qs.length := by
    have := boolMaskKeep_replicate_false (List.range qs.length)
    rwa [List.length_range] at this
  have hk3 : boolMaskSel (List.range qs.length) (List.replicate qs.length false)
      = [] := by
    have := boolMaskSel_replicate_false (List.range qs.length)
    rwa [List.length_range] at this
  rw [hk1, hk2, hk3, List.append_nil]
  rw [show (List.map PFloat.finite qs).reverse = List.map PFloat.finite qs.reverse
    from (List.map_reverse _ _).symm]

theorem range_reverse_getD (n j : ℕ) (h : j < n) :
    (List.range n).reverse.getD j 0 = n - 1 - j := by
  rw [List.getD_eq_getElem _ _ (by simpa using h), List.getElem_reverse,
      List.getElem_range, List.length_range]

theorem reverse_getD_frac (qs : List Frac) {a : ℕ} (h : a < qs.length) :
    qs.reverse.getD a (Frac.ofInt 0) = qs.getD (qs.length - 1 - a) (Frac.ofInt 0) := by
  rw [List.getD_eq_getElem _ _ (by simpa using h), List.getElem_reverse,
      List.getD_eq_getElem _ _ (by omega)]

theorem map_range_rev (n : ℕ) :
    (List.range n).map (fun j => n - 1 - j) = (List.range n).reverse := by
  apply List.ext_getElem
  · simp
  · intro i h1 h2
    simp [List.getElem_reverse, List.getElem_range]

/-- C6 (amended): `sort_values('Value ($)', ascending=False)` returns the
rows selected by the pandas descending argsort; for all-finite value
columns of at most 16 rows (numpy's insertion-sort regime) that indexer is
a permutation of the row indices that is sorted by value *descending with
ties in original row order* — the claimed stable behaviour, which the
17-row counterexample shows is lost beyond the insertion-sort cutoff. -/
theorem C6_sort (df : DataFrame) (qs : List Frac)
    (hcol : df.getCol "Value ($)"
      = some (qs.map (fun q => PyVal.f (PFloat.finite q))))
    (hlen : qs.length ≤ 16) :
    sortValuesDesc df
      = some (df.takeRows (pandasDescArgsort (qs.map PFloat.finite))) ∧
    (pandasDescArgsort (qs.map PFloat.finite)).Perm (List.range qs.length) ∧
    (pandasDescArgsort (qs.map PFloat.finite)).Pairwise (descStable qs) := by
  have hmain := pandasDescArgsort_finite qs
  have hsmall : aquicksortList (qs.reverse.map PFloat.finite)
      = npInsertion (qs.reverse.map PFloat.finite)
          (List.range qs.reverse.length) := by
    refine (aquicksortList_small _ (by simpa using hlen)).trans ?_
    rw [List.length_map]
  obtain ⟨hasc_pair, hasc_perm⟩ := npInsertion_range qs.reverse
  rw [← hsmall] at hasc_pair hasc_perm
  rw [List.length_reverse] at hasc_perm
  have hbound : ∀ x ∈ aquicksortList (qs.reverse.map PFloat.finite),
      x < qs.length := by
    intro x hx
    exact List.mem_range.mp (hasc_perm.mem_iff.mp hx)
  refine ⟨?_, ?_, ?_⟩
  · unfold sortValuesDesc
    rw [hcol]
    simp only [Option.bind_eq_bind, Option.some_bind]
    have hcm : colMapM asFloat (qs.map (fun q => PyVal.f (PFloat.finite q)))
        = some (qs.map PFloat.finite) := by
      have := colMapM_map_some asFloat (fun q : PFloat => PyVal.f q)
        (fun b => rfl) (qs.map PFloat.finite)
      rwa [List.map_map] at this
    rw [hcm]
    simp
  · rw [hmain]
    refine ((aquicksortList (qs.reverse.map PFloat.finite)).map _).reverse_perm.trans ?_
    have hmapcongr : (aquicksortList (qs.reverse.map PFloat.finite)).map
        (fun j => (List.range qs.length).reverse.getD j 0)
        = (aquicksortList (qs.reverse.map PFloat.finite)).map
          (fun j => qs.length - 1 - j) := by
      apply List.map_congr_left
      intro j hj
      exact range_reverse_getD qs.length j (hbound j hj)
    rw [hmapcongr]
    refine (hasc_perm.map (fun j => qs.length - 1 - j)).trans ?_
    rw [map_range_rev]
    exact (List.range qs.length).reverse_perm
  · rw [hmain, List.pairwise_reverse, List.pairwise_map]
    refine List.Pairwise.imp_of_mem ?_ hasc_pair
    intro a b ha hb hasc
    have haq : a < qs.length := hbound a ha
    have hbq : b < qs.length := hbound b hb
    rw [range_reverse_getD qs.length a haq, range_reverse_getD qs.length b hbq]
    have hka : qs.reverse.getD a (Frac.ofInt 0)
        = qs.getD (qs.length - 1 - a) (Frac.ofInt 0) :=
      reverse_getD_frac qs haq
    have hkb : qs.reverse.getD b (Frac.ofInt 0)
        = qs.getD (qs.length - 1 - b) (Frac.ofInt 0) :=
      reverse_getD_frac qs hbq
    rcases hasc with hlt | ⟨heq, hab⟩
    · rw [hka, hkb] at hlt
      exact Or.inl hlt
    · rw [hka, hkb] at heq
      exact Or.inr ⟨heq, by omega⟩

/-- Witness for `C6_sort` on a three-row frame with tied values `5, 3, 5`:
the descending argsort is a stable permutation of the rows. -/
theorem C6_sort_witness :
    sortValuesDesc
        (⟨[("Value ($)",
            [PyVal.f (PFloat.finite ⟨5, 0⟩), PyVal.f (PFloat.finite ⟨3, 0⟩),
              PyVal.f (PFloat.finite ⟨5, 0⟩)])]⟩ : DataFrame)
      = some ((⟨[("Value ($)",
            [PyVal.f (PFloat.finite ⟨5, 0⟩), PyVal.f (PFloat.finite ⟨3, 0⟩),
              PyVal.f (PFloat.finite ⟨5, 0⟩)])]⟩ : DataFrame).takeRows
          (pandasDescArgsort
            (([⟨5, 0⟩, ⟨3, 0⟩, ⟨5, 0⟩] : List Frac).map PFloat.finite))) ∧
    (pandasDescArgsort
        (([⟨5, 0⟩, ⟨3, 0⟩, ⟨5, 0⟩] : List Frac).map PFloat.finite)).Perm
      (List.range 3) ∧
    (pandasDescArgsort
        (([⟨5, 0⟩, ⟨3, 0⟩, ⟨5, 0⟩] : List Frac).map PFloat.finite)).Pairwise
      (descStable [⟨5, 0⟩, ⟨3, 0⟩, ⟨5, 0⟩]) := by
  have h := C6_sort
    (⟨[("Value ($)",
        [PyVal.f (PFloat.finite ⟨5, 0⟩), PyVal.f (PFloat.finite ⟨3, 0⟩),
          PyVal.f (PFloat.finite ⟨5, 0⟩)])]⟩ : DataFrame)
    [⟨5, 0⟩, ⟨3, 0⟩, ⟨5, 0⟩] rfl (by decide)
  exact ⟨h.1, h.2.1, h.2.2⟩
